import Mathlib

/-!
Verification of the `hka-2fa-proxy` reverse proxy (`proxy/proxy.go`).

Strings are modelled as `List Char`; the Go `strings` package operations used
by the proxy (`Split`, `Contains`, `HasPrefix`, `TrimPrefix`, `ReplaceAll`)
are embedded below, and the proxy's functions are translated one-to-one from
the source.  Network I/O is modelled by oracles: every upstream exchange is a
parameter giving either a transport error or a concrete `Resp`.
-/

namespace HkaProxy

/-- Shorthand: the character list of a string literal. -/
def lit (s : String) : List Char := s.toList

/-! ## Go `strings` primitives -/

/-- Go `strings.Split(s, string(sep))` for a one-character separator:
splits around each occurrence of `sep`; the result is never empty and
never contains `sep`. -/
def splitOnCh (sep : Char) : List Char → List (List Char)
  | [] => [[]]
  | c :: rest =>
    if c = sep then [] :: splitOnCh sep rest
    else
      match splitOnCh sep rest with
      | [] => [[c]]
      | h :: t => (c :: h) :: t

/-- Go `strings.Join(xs, string(sep))` for a one-character separator. -/
def joinCh (sep : Char) : List (List Char) → List Char
  | [] => []
  | [x] => x
  | x :: xs => x ++ sep :: joinCh sep xs

/-- Go `strings.Contains(s, q)`. -/
def containsSub (s q : List Char) : Bool :=
  match s with
  | [] => q.isEmpty
  | _ :: rest => q.isPrefixOf s || containsSub rest q

/-- Go `strings.TrimPrefix(s, pre)`. -/
def trimPref (s pre : List Char) : List Char :=
  if pre.isPrefixOf s then s.drop pre.length else s

/-- Go `strings.ReplaceAll(s, pat, rep)`: replaces the leftmost,
non-overlapping occurrences of `pat`.  Every pattern passed by the proxy is a
non-empty literal; the Go behaviour for an empty pattern (inserting `rep`
between characters) is never exercised and is not reproduced. -/
def replaceAll (pat rep : List Char) : List Char → List Char
  | [] => []
  | c :: cs =>
    if pat.isPrefixOf (c :: cs) then
      rep ++ replaceAll pat rep (List.drop (pat.length - 1) cs)
    else
      c :: replaceAll pat rep cs
termination_by s => s.length
decreasing_by
  · simp only [List.length_drop, List.length_cons]
    omega
  · simp

/-! ## The server record (`type server struct`) -/

/-- The immutable configuration of `proxy.server`: the cookie jar is kept
outside, threaded explicitly through the stateful operations. -/
structure Server where
  targetBaseURL : List Char
  username : List Char
  authKey : List Char

/-- An upstream HTTP response as the proxy observes it: status code,
`Location` and `Content-Type` headers (`Header.Get` returns the empty string
when a header is absent), body, and the `Set-Cookie` values. -/
structure Resp where
  statusCode : Nat
  location : List Char
  contentType : List Char
  body : List Char
  cookies : List (List Char)
deriving DecidableEq

/-! ## Login detection helpers (`proxy.go` lines 32-49) -/

/-- `isLoginSuccessful`: status is exactly 302 Found and `Location` is `/`. -/
def isLoginSuccessful (r : Resp) : Bool :=
  (r.statusCode == 302) && (r.location == lit "/")

/-- `isLoginPage`: the body contains the upstream login-page marker. -/
def isLoginPage (body : List Char) : Bool :=
  containsSub body (lit "Welcome to HKA MFA-protected Services.")

/-- `isRedirectToLogin`: the `Location` header mentions `lm_auth_proxy`.
Note the source checks only the header text, not the status code. -/
def isRedirectToLogin (r : Resp) : Bool :=
  containsSub r.location (lit "lm_auth_proxy")

/-! ## Access gate and path resolution (`proxy.go` lines 278-314) -/

/-- `server.isAuthorizedRequest` on the request's URL path (the Go local
`parts := strings.Split(r.URL.Path, "/")` is inlined). -/
def isAuthorizedRequest (s : Server) (path : List Char) : Bool :=
  if s.authKey = [] then true
  else
    decide (2 < (splitOnCh '/' path).length)
      && ((splitOnCh '/' path)[1]? == some (lit "_"))
      && ((splitOnCh '/' path)[2]? == some s.authKey)

/-- `server.resolveTargetRequestURI` on the request's URL path and raw query
(the Go locals `parts`, `uri` and `path` are inlined). -/
def resolveTargetRequestURI (s : Server) (path rawQuery : List Char) :
    Except (List Char) (List Char) :=
  if s.authKey = [] then
    .ok (if rawQuery ≠ [] then path ++ '?' :: rawQuery else path)
  else if (splitOnCh '/' path).length = 3 ∧ (splitOnCh '/' path)[1]? = some (lit "_")
      ∧ (splitOnCh '/' path)[2]? = some s.authKey then
    .ok (lit "/")
  else if 3 < (splitOnCh '/' path).length ∧ (splitOnCh '/' path)[1]? = some (lit "_")
      ∧ (splitOnCh '/' path)[2]? = some s.authKey then
    .ok (if rawQuery ≠ [] then
        ('/' :: joinCh '/' ((splitOnCh '/' path).drop 3)) ++ '?' :: rawQuery
      else '/' :: joinCh '/' ((splitOnCh '/' path).drop 3))
  else
    .error (lit "invalid request URI: " ++ path)

/-! ## HTML body rewriting (`server.replaceHTMLContent`, lines 255-276) -/

/-- `server.replaceHTMLContent`: sequential `strings.ReplaceAll` chain, in
source order (innermost application first; the Go local `newBody` is the
nesting). -/
def replaceHTMLContent (s : Server) (body : List Char) : List Char :=
  if s.authKey ≠ [] then
    replaceAll (lit "src=\"" ++ s.targetBaseURL ++ lit "/")
      (lit "src=\"/_/" ++ s.authKey ++ lit "/")
      (replaceAll (lit "href=\"" ++ s.targetBaseURL ++ lit "/")
        (lit "href=\"/_/" ++ s.authKey ++ lit "/")
        (replaceAll (lit "action=\"" ++ s.targetBaseURL ++ lit "/")
          (lit "action=\"/_/" ++ s.authKey ++ lit "/")
          (replaceAll (lit "src=\"/") (lit "src=\"/_/" ++ s.authKey ++ lit "/")
            (replaceAll (lit "href=\"/") (lit "href=\"/_/" ++ s.authKey ++ lit "/")
              (replaceAll (lit "action=\"/") (lit "action=\"/_/" ++ s.authKey ++ lit "/")
                (replaceAll (lit "URL=/") (lit "URL=/_/" ++ s.authKey ++ lit "/")
                  body))))))
  else
    replaceAll (lit "src=\"" ++ s.targetBaseURL ++ lit "/") (lit "src=\"/")
      (replaceAll (lit "href=\"" ++ s.targetBaseURL ++ lit "/") (lit "href=\"/")
        (replaceAll (lit "action=\"" ++ s.targetBaseURL ++ lit "/") (lit "action=\"/")
          body))

/-! ## Location header rewriting (`server.getLocation`, lines 316-339) -/

/-- `server.getLocation` (the Go local `trimmed` is inlined). -/
def getLocation (s : Server) (location : List Char) : List Char :=
  if s.targetBaseURL.isPrefixOf location then
    if s.authKey = [] then
      (if trimPref location s.targetBaseURL = [] then lit "/"
        else trimPref location s.targetBaseURL)
    else
      lit "/_/" ++ s.authKey
        ++ (if trimPref location s.targetBaseURL = [] then lit "/"
          else trimPref location s.targetBaseURL)
  else if (lit "/").isPrefixOf location then
    if s.authKey = [] then location
    else lit "/_/" ++ s.authKey ++ location
  else
    location

/-! ## Query parsing (Go `net/url.ParseQuery`, used at line 117) -/

/-- Go `net/url.ishex`: ASCII digits and the hex letters of either case. -/
def ishex (c : Char) : Prop :=
  c.isDigit ∨ ('a' ≤ c ∧ c ≤ 'f') ∨ ('A' ≤ c ∧ c ≤ 'F')

instance (c : Char) : Decidable (ishex c) := by
  unfold ishex
  infer_instance

/-- Go `net/url.unhex`: the numeric value of a hex digit (`c-'0'`,
`c-'a'+10`, `c-'A'+10`). -/
def unhex (c : Char) : Nat :=
  if c.isDigit then c.toNat - '0'.toNat
  else if 'a' ≤ c ∧ c ≤ 'f' then c.toNat - 'a'.toNat + 10
  else c.toNat - 'A'.toNat + 10

/-- One step of Go `url.QueryUnescape`: `+` becomes a space and `%XY`
requires two hexadecimal digits, decoding to the byte `16*X + Y`. -/
def queryUnescape : List Char → Except (List Char) (List Char)
  | [] => .ok []
  | '%' :: a :: b :: rest =>
    if ishex a then
      if ishex b then
        match queryUnescape rest with
        | .error e => .error e
        | .ok r => .ok (Char.ofNat (16 * unhex a + unhex b) :: r)
      else .error (lit "invalid URL escape")
    else .error (lit "invalid URL escape")
  | '%' :: _ => .error (lit "invalid URL escape")
  | '+' :: rest =>
    match queryUnescape rest with
    | .error e => .error e
    | .ok r => .ok (' ' :: r)
  | c :: rest =>
    match queryUnescape rest with
    | .error e => .error e
    | .ok r => .ok (c :: r)

/-- Go `url.ParseQuery`: split on `&`, reject `;`, skip empty segments,
cut each segment at the first `=`, unescape key and value.  `ParseQuery`
returns its first error alongside the partial map; the proxy only looks at
whether the error is non-nil, which is what the `Except` models. -/
def parseQuery (q : List Char) : Except (List Char) (List (List Char × List Char)) :=
  if q.contains ';' then .error (lit "invalid semicolon separator in query")
  else
    let segs := splitOnCh '&' q
    segs.foldr (fun seg acc =>
      match acc with
      | .error e => .error e
      | .ok m =>
        if seg = [] then .ok m
        else
          let ps := splitOnCh '=' seg
          let key := ps.headD []
          let val := joinCh '=' (ps.drop 1)
          match queryUnescape key with
          | .error e => .error e
          | .ok k =>
            match queryUnescape val with
            | .error e => .error e
            | .ok v => .ok ((k, v) :: m)) (.ok [])

/-! ## The login handshake (`proxy.go` lines 85-199)

Network effects are oracles: an `Except` carrying either the transport-error
text or the upstream's `Resp`.  The cookie jar is threaded explicitly; as in
`doRequest`, cookies of a received response are merged into the jar
(`saveCookiesFromResponse`; merging is modelled as appending the received
`Set-Cookie` values). -/

/-- A cookie jar: the `Set-Cookie` values stored so far. -/
abbrev Jar := List (List Char)

/-- `doRequest`: on transport failure the jar is untouched; on success the
response cookies are merged. -/
def doRequest (jar : Jar) (o : Except (List Char) Resp) :
    Jar × Except (List Char) Resp :=
  match o with
  | .error e => (jar, .error e)
  | .ok r => (jar ++ r.cookies, .ok r)

/-- `server.getLoginParameters`: initial GET to the upstream root; expects a
302 whose `Location` carries the login-form parameters after the last `?`.
Returns the updated jar plus either an error text or (parameters, referer). -/
def getLoginParameters (s : Server) (jar : Jar) (o : Except (List Char) Resp) :
    Jar × Except (List Char) (List (List Char × List Char) × List Char) :=
  match doRequest jar o with
  | (jar', .error e) => (jar', .error (lit "initial GET request failed: " ++ e))
  | (jar', .ok resp) =>
    if resp.statusCode ≠ 302 then
      (jar', .error (lit "expected a 302 redirect, but got status "
        ++ lit (toString resp.statusCode)))
    else if resp.location = [] then
      (jar', .error (lit "'Location' header not found in the response"))
    else if (splitOnCh '?' resp.location).length < 2 then
      (jar', .error (lit "could not parse query string from location: " ++ resp.location))
    else
      match parseQuery ((splitOnCh '?' resp.location).getLastD []) with
      | .error e => (jar', .error (lit "could not parse query parameters: " ++ e))
      | .ok params => (jar', .ok (params, s.targetBaseURL ++ resp.location))

/-- `server.submitLogin`: POST of the login form; only the transport result
matters here (the form body is built from the parameters and credentials). -/
def submitLogin (jar : Jar) (o : Except (List Char) Resp) :
    Jar × Except (List Char) Resp :=
  match doRequest jar o with
  | (jar', .error e) => (jar', .error (lit "login POST request failed: " ++ e))
  | (jar', .ok resp) => (jar', .ok resp)

/-- The network oracle for one run of `authenticateClient`: the outcome of
the initial GET and of the login POST. -/
structure AuthOracle where
  initial : Except (List Char) Resp
  login : Except (List Char) Resp

/-- Outcome of `authenticateClient`: the jar it leaves behind and how many
OTP codes it consumed (one `WaitForNextInterval`/`Generate` pair). -/
structure AuthOutcome where
  jar : Jar
  otpConsumed : Nat
deriving DecidableEq

/-- `server.authenticateClient`: clears the jar (`clearCookies` replaces it
with a fresh empty one — `cookiejar.New(nil)` cannot fail), fetches the
login parameters, consumes one OTP, submits the login and checks
`isLoginSuccessful`.  Returns the outcome and the error text, if any. -/
def authenticateClient (s : Server) (_jar0 : Jar) (o : AuthOracle) :
    AuthOutcome × Option (List Char) :=
  match getLoginParameters s [] o.initial with
  | (jar1, .error e) =>
    (⟨jar1, 0⟩, some (lit "could not get login parameters: " ++ e))
  | (jar1, .ok _) =>
    match submitLogin jar1 o.login with
    | (jar2, .error e) =>
      (⟨jar2, 1⟩, some (lit "could not submit login: " ++ e))
    | (jar2, .ok resp) =>
      if isLoginSuccessful resp then (⟨jar2, 1⟩, none)
      else (⟨jar2, 1⟩, some (lit "login failed"))

/-! ## The proxy engine (`server.proxyRequest`, lines 341-430) -/

/-- One response written to the `http.ResponseWriter`: status code, body and
the `Location` header, when one was set. -/
structure HttpWrite where
  status : Nat
  body : List Char
  location : Option (List Char)
deriving DecidableEq

/-- The errors `proxyRequest` can return.  `transport true msg` is a
`client.Do` failure for which `errors.Is(err, context.DeadlineExceeded)`
holds.  Reading the inbound request body and building the outbound request
cannot fail in this model. -/
inductive PrxErr
  | unauthorized
  | resolveURI (msg : List Char)
  | transport (deadline : Bool) (msg : List Char)
  | notLoggedIn
deriving DecidableEq

/-- The `Error()` text of a `PrxErr`, as interpolated into the 502/504
bodies by `ServeHTTP`. -/
def PrxErr.text : PrxErr → List Char
  | .unauthorized => lit "unauthorized"
  | .resolveURI m => lit "could not resolve target request URI: " ++ m
  | .transport _ m => m
  | .notLoggedIn => lit "not logged in anymore"

/-- State left behind by one `proxyRequest` attempt. -/
structure PrxOutcome where
  writes : List HttpWrite
  jar : Jar
  upstreamCalled : Bool
deriving DecidableEq

/-- `server.proxyRequest`, over the upstream oracle `up` (transport error
with deadline flag and text, or a response).  Follows the source: gate,
resolve, forward, merge cookies, rewrite the HTML body when the
`Content-Type` contains `text/html`, detect invalidation, rewrite
`Location` on 3xx, write status and body. -/
def proxyRequest (s : Server) (path rawQuery : List Char) (jar : Jar)
    (up : Except (Bool × List Char) Resp) : PrxOutcome × Option PrxErr :=
  if ¬ isAuthorizedRequest s path then
    (⟨[⟨401, lit "unauthorized" ++ ['\n'], none⟩], jar, false⟩, some .unauthorized)
  else
    match resolveTargetRequestURI s path rawQuery with
    | .error m => (⟨[], jar, false⟩, some (.resolveURI m))
    | .ok _ =>
      match up with
      | .error (d, m) => (⟨[], jar, true⟩, some (.transport d m))
      | .ok resp =>
        if isLoginPage resp.body || isRedirectToLogin resp then
          (⟨[], jar ++ resp.cookies, true⟩, some .notLoggedIn)
        else
          (⟨[⟨resp.statusCode,
              (if containsSub resp.contentType (lit "text/html") then
                replaceHTMLContent s resp.body
              else resp.body),
              (if 300 ≤ resp.statusCode ∧ resp.statusCode < 400 then
                some (getLocation s resp.location)
              else none)⟩],
            jar ++ resp.cookies, true⟩, none)

/-! ## The retry controller (`server.ServeHTTP`, lines 432-461) -/

/-- Oracle for one `ServeHTTP` call: first upstream exchange, the
re-authentication exchanges, the retried upstream exchange. -/
structure ServeOracle where
  up1 : Except (Bool × List Char) Resp
  auth : AuthOracle
  up2 : Except (Bool × List Char) Resp

/-- What one `ServeHTTP` call did: everything written to the client, the
final jar, and how many proxy attempts / re-authentications / OTP
consumptions happened. -/
structure ServeOutcome where
  writes : List HttpWrite
  jar : Jar
  attempts : Nat
  reauths : Nat
  otpConsumed : Nat
deriving DecidableEq

/-- Whether `errors.Is(err, context.DeadlineExceeded)` holds for a
`proxyRequest` error: only a transport error whose chain carries the
deadline sentinel matches. -/
def PrxErr.isDeadline : PrxErr → Bool
  | .transport d _ => d
  | _ => false

/-- `server.ServeHTTP`: one proxy attempt; stop on `errUnauthorized` (the
401 is already written); 504 on a deadline error; otherwise exactly one
re-authentication, then either a 502 or one retried proxy attempt whose
failure yields the second 502. -/
def serveHTTP (s : Server) (path rawQuery : List Char) (jar0 : Jar)
    (o : ServeOracle) : ServeOutcome :=
  match proxyRequest s path rawQuery jar0 o.up1 with
  | (o1, none) => ⟨o1.writes, o1.jar, 1, 0, 0⟩
  | (o1, some e1) =>
    if e1 = .unauthorized then
      ⟨o1.writes, o1.jar, 1, 0, 0⟩
    else if e1.isDeadline then
      ⟨o1.writes ++ [⟨504, lit "request timed out: " ++ e1.text ++ ['\n'], none⟩],
        o1.jar, 1, 0, 0⟩
    else
      match authenticateClient s o1.jar o.auth with
      | (a, some m) =>
        ⟨o1.writes ++ [⟨502, lit "re-authentication failed: " ++ m ++ ['\n'], none⟩],
          a.jar, 1, 1, a.otpConsumed⟩
      | (a, none) =>
        match proxyRequest s path rawQuery a.jar o.up2 with
        | (o2, none) => ⟨o1.writes ++ o2.writes, o2.jar, 2, 1, a.otpConsumed⟩
        | (o2, some e2) =>
          ⟨o1.writes ++ o2.writes
            ++ [⟨502, lit "proxy error after re-authentication: " ++ e2.text ++ ['\n'], none⟩],
            o2.jar, 2, 1, a.otpConsumed⟩

/-! ## Basic lemmas about the string primitives -/

theorem isPrefixOf_iff_ex (p s : List Char) :
    p.isPrefixOf s = true ↔ ∃ t, s = p ++ t := by
  induction p generalizing s with
  | nil => simp [List.isPrefixOf]
  | cons c p ih =>
    cases s with
    | nil => simp [List.isPrefixOf]
    | cons d s' =>
      simp only [List.isPrefixOf, Bool.and_eq_true, beq_iff_eq, ih, List.cons_append,
        List.cons.injEq]
      constructor
      · rintro ⟨rfl, t, rfl⟩
        exact ⟨t, rfl, rfl⟩
      · rintro ⟨t, rfl, rfl⟩
        exact ⟨rfl, t, rfl⟩

theorem splitOnCh_ne_nil (sep : Char) (s : List Char) : splitOnCh sep s ≠ [] := by
  induction s with
  | nil => simp [splitOnCh]
  | cons c rest ih =>
    simp only [splitOnCh]
    split
    · simp
    · cases h : splitOnCh sep rest with
      | nil => exact absurd h ih
      | cons hh tt => simp

theorem joinCh_cons_cons (sep : Char) (c : Char) (h : List Char) (t : List (List Char)) :
    joinCh sep ((c :: h) :: t) = c :: joinCh sep (h :: t) := by
  cases t <;> simp [joinCh]

theorem joinCh_splitOnCh (sep : Char) (s : List Char) :
    joinCh sep (splitOnCh sep s) = s := by
  induction s with
  | nil => simp [splitOnCh, joinCh]
  | cons c rest ih =>
    simp only [splitOnCh]
    split
    · rename_i hc
      cases h : splitOnCh sep rest with
      | nil => exact absurd h (splitOnCh_ne_nil sep rest)
      | cons hh tt =>
        subst hc
        simp only [joinCh, List.nil_append]
        rw [h] at ih
        simp [ih]
    · cases h : splitOnCh sep rest with
      | nil => exact absurd h (splitOnCh_ne_nil sep rest)
      | cons hh tt =>
        rw [h] at ih
        rw [joinCh_cons_cons, ih]

theorem splitOnCh_no_sep (sep : Char) (s : List Char) :
    ∀ p ∈ splitOnCh sep s, sep ∉ p := by
  induction s with
  | nil => simp [splitOnCh]
  | cons c rest ih =>
    simp only [splitOnCh]
    split
    · rintro p hp
      rcases List.mem_cons.mp hp with rfl | hp
      · simp
      · exact ih p hp
    · rename_i hc
      cases h : splitOnCh sep rest with
      | nil => exact absurd h (splitOnCh_ne_nil sep rest)
      | cons hh tt =>
        rintro p hp
        rcases List.mem_cons.mp hp with rfl | hp
        · intro hmem
          rcases List.mem_cons.mp hmem with rfl | hmem
          · exact hc rfl
          · exact ih hh (h ▸ List.mem_cons_self hh tt) hmem
        · exact ih p (h ▸ List.mem_cons_of_mem hh hp)

theorem splitOnCh_no_sep_eq (sep : Char) (a : List Char) (ha : sep ∉ a) :
    splitOnCh sep a = [a] := by
  induction a with
  | nil => simp [splitOnCh]
  | cons c a' ih =>
    have hc : ¬ c = sep := fun h => ha (h ▸ List.mem_cons_self c a')
    have ha' : sep ∉ a' := fun h => ha (List.mem_cons_of_mem c h)
    simp only [splitOnCh, if_neg hc, ih ha']

theorem splitOnCh_append_sep (sep : Char) (a rest : List Char) (ha : sep ∉ a) :
    splitOnCh sep (a ++ sep :: rest) = a :: splitOnCh sep rest := by
  induction a with
  | nil => simp [splitOnCh]
  | cons c a' ih =>
    have hc : ¬ c = sep := fun h => ha (h ▸ List.mem_cons_self c a')
    have ha' : sep ∉ a' := fun h => ha (List.mem_cons_of_mem c h)
    simp only [List.cons_append, splitOnCh, if_neg hc, List.append_eq, ih ha']

/-! ## Structure of an authorized path

When the access key is set, `isAuthorizedRequest` accepts exactly the paths
whose second and third slash-separated segments are `_` and the key. -/

theorem isAuthorizedRequest_true_shape (s : Server) (path : List Char)
    (hk : s.authKey ≠ [])
    (h : isAuthorizedRequest s path = true) :
    ∃ p0 rest, splitOnCh '/' path = p0 :: lit "_" :: s.authKey :: rest := by
  unfold isAuthorizedRequest at h
  rw [if_neg hk] at h
  simp only [Bool.and_eq_true, decide_eq_true_eq, beq_iff_eq] at h
  obtain ⟨⟨hlen, h1⟩, h2⟩ := h
  cases hsp : splitOnCh '/' path with
  | nil => exact absurd hsp (splitOnCh_ne_nil '/' path)
  | cons p0 t1 =>
    cases t1 with
    | nil => rw [hsp] at hlen; simp at hlen
    | cons p1 t2 =>
      cases t2 with
      | nil => rw [hsp] at hlen; simp at hlen
      | cons p2 rest =>
        rw [hsp] at h1 h2
        simp only [List.getElem?_cons_succ, List.getElem?_cons_zero, Option.some.injEq] at h1 h2
        exact ⟨p0, rest, by rw [h1, h2]⟩

theorem authorized_path_shape (s : Server) (path : List Char)
    (hk : s.authKey ≠ [])
    (hpath : '/' ∈ path → path.head? = some '/')
    (h : isAuthorizedRequest s path = true) :
    (∃ t, path = lit "/_/" ++ s.authKey ++ '/' :: t) ∨ path = lit "/_/" ++ s.authKey := by
  obtain ⟨p0, rest, hsp⟩ := isAuthorizedRequest_true_shape s path hk h
  have hjoin := joinCh_splitOnCh '/' path
  rw [hsp] at hjoin
  have hp0 : p0 = [] := by
    cases hp0c : p0 with
    | nil => rfl
    | cons c p0' =>
      exfalso
      rw [hp0c] at hsp hjoin
      rw [joinCh_cons_cons] at hjoin
      have hmem : '/' ∈ path := by
        rw [← hjoin]
        have : '/' ∈ joinCh '/' (p0' :: lit "_" :: s.authKey :: rest) := by
          cases p0' <;> simp [joinCh, joinCh_cons_cons]
        exact List.mem_cons_of_mem c this
      have hhead := hpath hmem
      rw [← hjoin] at hhead
      simp only [List.head?_cons, Option.some.injEq] at hhead
      have hns : '/' ∉ c :: p0' :=
        splitOnCh_no_sep '/' path (c :: p0') (by rw [hsp]; exact List.mem_cons_self _ _)
      exact hns (hhead ▸ List.mem_cons_self c p0')
  rw [hp0] at hjoin
  simp only [joinCh, List.nil_append] at hjoin
  cases rest with
  | nil =>
    right
    rw [← hjoin]
    simp [joinCh, lit]
  | cons r rs =>
    left
    refine ⟨joinCh '/' (r :: rs), ?_⟩
    rw [← hjoin]
    simp [joinCh, lit]

theorem authorized_of_path_shape (s : Server) (path : List Char)
    (hkey : '/' ∉ s.authKey)
    (h : (∃ t, path = lit "/_/" ++ s.authKey ++ '/' :: t) ∨ path = lit "/_/" ++ s.authKey) :
    isAuthorizedRequest s path = true := by
  have split3 : ∀ tail, splitOnCh '/' (lit "/_/" ++ s.authKey ++ tail)
      = [] :: lit "_" :: splitOnCh '/' (s.authKey ++ tail) := by
    intro tail
    simp [lit, splitOnCh]
  rcases h with ⟨t, rfl⟩ | rfl
  · unfold isAuthorizedRequest
    split
    · rfl
    · rw [split3 ('/' :: t), splitOnCh_append_sep '/' s.authKey t hkey]
      simp
  · unfold isAuthorizedRequest
    split
    · rfl
    · have h3 := split3 []
      simp only [List.append_nil] at h3
      rw [h3, splitOnCh_no_sep_eq '/' s.authKey hkey]
      simp

theorem splitOnCh_bareKeyPath (key : List Char) (hk : '/' ∉ key) :
    splitOnCh '/' (lit "/_/" ++ key) = [[], lit "_", key] := by
  have : splitOnCh '/' (lit "/_/" ++ key) = [] :: lit "_" :: splitOnCh '/' key := by
    simp [lit, splitOnCh]
  rw [this, splitOnCh_no_sep_eq '/' key hk]

theorem splitOnCh_keyPath (key t : List Char) (hk : '/' ∉ key) :
    splitOnCh '/' (lit "/_/" ++ key ++ '/' :: t)
      = [] :: lit "_" :: key :: splitOnCh '/' t := by
  rw [List.append_assoc]
  have h0 : splitOnCh '/' (lit "/_/" ++ (key ++ '/' :: t))
      = [] :: lit "_" :: splitOnCh '/' (key ++ '/' :: t) := by
    simp [lit, splitOnCh]
  rw [h0, splitOnCh_append_sep '/' key t hk]

/-! ## Claim C2: the access gate -/

/-- C2: with an access key configured, a request is authorized iff its path
begins with `/_/<key>/` or is exactly `/_/<key>`; an unauthorized request
receives exactly one 401 write and causes no upstream call, no jar mutation
and no re-authentication (hence no OTP consumption).  With no key configured
every request is authorized.  Paths are HTTP origin-form paths (a path
containing `/` starts with `/`), and the key — validated by `validAuthKey` at
startup — contains no `/`. -/
theorem accessGate_contract (s : Server) (path rawQuery : List Char)
    (jar : Jar) (up : Except (Bool × List Char) Resp) (o : ServeOracle)
    (hkey : '/' ∉ s.authKey)
    (hpath : '/' ∈ path → path.head? = some '/') :
    (s.authKey = [] → isAuthorizedRequest s path = true) ∧
    (s.authKey ≠ [] →
      (isAuthorizedRequest s path = true ↔
        (∃ t, path = lit "/_/" ++ s.authKey ++ '/' :: t) ∨ path = lit "/_/" ++ s.authKey)) ∧
    (isAuthorizedRequest s path = false →
      proxyRequest s path rawQuery jar up
        = (⟨[⟨401, lit "unauthorized" ++ ['\n'], none⟩], jar, false⟩, some .unauthorized) ∧
      serveHTTP s path rawQuery jar o
        = ⟨[⟨401, lit "unauthorized" ++ ['\n'], none⟩], jar, 1, 0, 0⟩) := by
  refine ⟨?_, ?_, ?_⟩
  · intro hk
    unfold isAuthorizedRequest
    rw [if_pos hk]
  · intro hk
    exact ⟨authorized_path_shape s path hk hpath, authorized_of_path_shape s path hkey⟩
  · intro hfalse
    have hpr : ∀ u, proxyRequest s path rawQuery jar u
        = (⟨[⟨401, lit "unauthorized" ++ ['\n'], none⟩], jar, false⟩, some .unauthorized) := by
      intro u
      simp [proxyRequest, hfalse]
    refine ⟨hpr up, ?_⟩
    unfold serveHTTP
    rw [hpr o.up1]
    simp

/-- Witness for C2 at a concrete key and path. -/
theorem accessGate_contract_witness :
    isAuthorizedRequest ⟨lit "https://owa.h-ka.de", lit "u", lit "k"⟩ (lit "/_/k/owa") = true := by
  have h := (accessGate_contract ⟨lit "https://owa.h-ka.de", lit "u", lit "k"⟩
    (lit "/_/k/owa") [] [] (.error (false, []))
    ⟨.error (false, []), ⟨.error [], .error []⟩, .error (false, [])⟩
    (by decide) (by decide)).2.1 (by decide)
  exact h.mpr (.inl ⟨lit "owa", by decide⟩)

/-! ## Claim C9: the resolver is total on authorized requests -/

theorem resolve_ok_of_authorized (s : Server)
    (path rawQuery : List Char)
    (h : isAuthorizedRequest s path = true) :
    ∃ uri, resolveTargetRequestURI s path rawQuery = .ok uri := by
  unfold resolveTargetRequestURI
  by_cases hk : s.authKey = []
  · rw [if_pos hk]
    exact ⟨_, rfl⟩
  · rw [if_neg hk]
    obtain ⟨p0, rest, hsp⟩ := isAuthorizedRequest_true_shape s path hk h
    rw [hsp]
    cases rest with
    | nil => exact ⟨lit "/", by simp⟩
    | cons r rs =>
      refine ⟨if rawQuery ≠ [] then ('/' :: joinCh '/' (r :: rs)) ++ '?' :: rawQuery
        else '/' :: joinCh '/' (r :: rs), ?_⟩
      rw [if_neg (by simp),
        if_pos ⟨by simp only [List.length_cons]; omega, by simp, by simp⟩]
      simp

/-- C9: whenever `isAuthorizedRequest` accepts a request, the resolver's
"invalid request URI" branch is unreachable: `resolveTargetRequestURI`
returns a path. -/
theorem resolveTargetRequestURI_total_on_authorized (s : Server)
    (path rawQuery : List Char)
    (h : isAuthorizedRequest s path = true) :
    ∃ uri, resolveTargetRequestURI s path rawQuery = .ok uri :=
  resolve_ok_of_authorized s path rawQuery h

/-- Witness for C9 at a concrete authorized request. -/
theorem resolveTargetRequestURI_total_on_authorized_witness :
    ∃ uri, resolveTargetRequestURI ⟨lit "https://owa.h-ka.de", lit "u", lit "k"⟩
      (lit "/_/k/owa/calendar") (lit "x=1") = .ok uri :=
  resolveTargetRequestURI_total_on_authorized _ _ _ (by decide)

/-! ## Claim C4: path resolution -/

/-- C4 counterexample: with key `k`, inbound path `/_/k` and raw query
`x=1`, the resolver returns `/` — the query string is dropped in this keyed
case, so "the query string is preserved in the keyed case as well" fails. -/
theorem resolveTargetRequestURI_bareKey_drops_query :
    resolveTargetRequestURI ⟨lit "https://owa.h-ka.de", lit "u", lit "k"⟩
      (lit "/_/k") (lit "x=1") = .ok (lit "/")
    ∧ lit "/" ≠ lit "/?x=1" := by
  constructor
  · rfl
  · decide

/-- C4 (amended): with key `<key>`, `/_/<key>/<rest>` resolves to `/<rest>`
with the query preserved, and `/_/<key>` resolves to `/` with the query
dropped; with no key, any path and query resolve unchanged. -/
theorem resolveTargetRequestURI_spec (s : Server) (rest rawQuery : List Char)
    (hkey : s.authKey ≠ []) (hk2 : '/' ∉ s.authKey) :
    (resolveTargetRequestURI s (lit "/_/" ++ s.authKey ++ '/' :: rest) rawQuery
      = .ok (('/' :: rest) ++ (if rawQuery ≠ [] then '?' :: rawQuery else []))) ∧
    (resolveTargetRequestURI s (lit "/_/" ++ s.authKey) rawQuery = .ok (lit "/")) ∧
    (∀ (s' : Server) (path q : List Char), s'.authKey = [] →
      resolveTargetRequestURI s' path q
        = .ok (path ++ (if q ≠ [] then '?' :: q else []))) := by
  refine ⟨?_, ?_, ?_⟩
  · unfold resolveTargetRequestURI
    rw [if_neg hkey, splitOnCh_keyPath s.authKey rest hk2]
    have hj : joinCh '/' (splitOnCh '/' rest) = rest := joinCh_splitOnCh '/' rest
    cases hsr : splitOnCh '/' rest with
    | nil => exact absurd hsr (splitOnCh_ne_nil '/' rest)
    | cons r rs =>
      rw [hsr] at hj
      rw [if_neg (by simp),
        if_pos ⟨by simp only [List.length_cons]; omega, by simp, by simp⟩]
      simp only [List.drop_succ_cons, List.drop_zero, hj]
      cases hq : rawQuery with
      | nil => simp
      | cons a b => simp
  · unfold resolveTargetRequestURI
    rw [if_neg hkey, splitOnCh_bareKeyPath s.authKey hk2]
    rw [if_pos (by simp)]
  · intro s' path q hk
    unfold resolveTargetRequestURI
    rw [if_pos hk]
    cases hq : q with
    | nil => simp
    | cons a b => simp

/-- Witness for C4's amended claim at the spec's concrete example. -/
theorem resolveTargetRequestURI_spec_witness :
    resolveTargetRequestURI ⟨lit "https://owa.h-ka.de", lit "u", lit "k"⟩
      (lit "/_/k/owa/calendar") [] = .ok (lit "/owa/calendar") := by
  have h := (resolveTargetRequestURI_spec ⟨lit "https://owa.h-ka.de", lit "u", lit "k"⟩
    (lit "owa/calendar") [] (by decide) (by decide)).1
  have e1 : lit "/_/k/owa/calendar"
      = lit "/_/" ++ lit "k" ++ '/' :: lit "owa/calendar" := by decide
  have e2 : ('/' :: lit "owa/calendar")
        ++ (if ([] : List Char) ≠ [] then '?' :: ([] : List Char) else [])
      = lit "/owa/calendar" := by decide
  rw [e1, ← e2]
  exact h

/-! ## Claim C8: `Location` response-header rewriting -/

theorem isPrefixOf_append_self (p t : List Char) : p.isPrefixOf (p ++ t) = true :=
  (isPrefixOf_iff_ex p (p ++ t)).mpr ⟨t, rfl⟩

theorem trimPref_append_self (p t : List Char) : trimPref (p ++ t) p = t := by
  unfold trimPref
  rw [if_pos (isPrefixOf_append_self p t), List.drop_left]

/-- C8: a `Location` beginning with the upstream base has the base stripped
(an empty remainder becoming `/`) and `/_/<key>` prepended when a key is
configured; a `Location` beginning with `/` (and not with the base) gets
`/_/<key>` prepended, or passes unchanged with no key; anything else passes
through unchanged.  In particular `<base>/` rewrites to `/` with no key and
to `/_/<key>/` with a key. -/
theorem getLocation_spec (s : Server) (rest location : List Char) :
    (getLocation s (s.targetBaseURL ++ rest)
      = (if s.authKey = [] then (if rest = [] then lit "/" else rest)
        else lit "/_/" ++ s.authKey ++ (if rest = [] then lit "/" else rest))) ∧
    (s.targetBaseURL.isPrefixOf location = false →
      (lit "/").isPrefixOf location = true →
      getLocation s location
        = (if s.authKey = [] then location else lit "/_/" ++ s.authKey ++ location)) ∧
    (s.targetBaseURL.isPrefixOf location = false →
      (lit "/").isPrefixOf location = false →
      getLocation s location = location) ∧
    (getLocation s (s.targetBaseURL ++ lit "/")
      = (if s.authKey = [] then lit "/" else lit "/_/" ++ s.authKey ++ lit "/")) := by
  have hbase : ∀ t : List Char, getLocation s (s.targetBaseURL ++ t)
      = (if s.authKey = [] then (if t = [] then lit "/" else t)
        else lit "/_/" ++ s.authKey ++ (if t = [] then lit "/" else t)) := by
    intro t
    unfold getLocation
    rw [if_pos (isPrefixOf_append_self s.targetBaseURL t), trimPref_append_self]
  refine ⟨hbase rest, ?_, ?_, ?_⟩
  · intro h1 h2
    unfold getLocation
    rw [if_neg (by simp [h1]), if_pos h2]
  · intro h1 h2
    unfold getLocation
    rw [if_neg (by simp [h1]), if_neg (by simp [h2])]
  · rw [hbase (lit "/")]
    have : lit "/" ≠ ([] : List Char) := by decide
    rw [if_neg this]

/-- Witness for C8 at a concrete root-relative location. -/
theorem getLocation_spec_witness :
    getLocation ⟨lit "https://owa.h-ka.de", lit "u", lit "k"⟩ (lit "/owa")
      = lit "/_/k/owa" := by
  have h := (getLocation_spec ⟨lit "https://owa.h-ka.de", lit "u", lit "k"⟩ []
    (lit "/owa")).2.1 (by decide) (by decide)
  rw [h]
  decide

/-! ## Claim C6: the login success criterion -/

/-- C6: provided the handshake reached the login POST (the parameter fetch
succeeded and the POST's transport succeeded with response `resp`),
`authenticateClient` succeeds iff `resp` has status exactly 302 and
`Location` exactly `/`; any other combination yields the "login failed"
error. -/
theorem authenticateClient_success_iff (s : Server) (jar0 : Jar) (o : AuthOracle)
    (resp : Resp) (params : List (List Char × List Char)) (referer : List Char)
    (jar1 : Jar)
    (hinit : getLoginParameters s [] o.initial = (jar1, .ok (params, referer)))
    (hlogin : o.login = .ok resp) :
    ((authenticateClient s jar0 o).2 = none ↔
      resp.statusCode = 302 ∧ resp.location = lit "/") ∧
    ((authenticateClient s jar0 o).2 = none ↔ isLoginSuccessful resp = true) ∧
    (isLoginSuccessful resp = false →
      (authenticateClient s jar0 o).2 = some (lit "login failed")) := by
  have hrun : authenticateClient s jar0 o
      = (if isLoginSuccessful resp then (⟨jar1 ++ resp.cookies, 1⟩, none)
        else (⟨jar1 ++ resp.cookies, 1⟩, some (lit "login failed"))) := by
    unfold authenticateClient
    rw [hinit]
    simp only [submitLogin, doRequest, hlogin]
  have hiff : isLoginSuccessful resp = true ↔
      resp.statusCode = 302 ∧ resp.location = lit "/" := by
    simp [isLoginSuccessful]
  have h2 : (authenticateClient s jar0 o).2 = none ↔ isLoginSuccessful resp = true := by
    rw [hrun]
    cases h : isLoginSuccessful resp with
    | true => simp
    | false => simp
  refine ⟨h2.trans hiff, h2, ?_⟩
  intro h
  rw [hrun, if_neg (by simp [h])]

/-- Witness for C6 at a concrete successful handshake. -/
theorem authenticateClient_success_iff_witness :
    (authenticateClient ⟨lit "https://owa.h-ka.de", lit "u", lit "k"⟩ []
      ⟨.ok ⟨302, lit "/x?a=b", [], [], []⟩, .ok ⟨302, lit "/", [], [], []⟩⟩).2 = none := by
  have h := (authenticateClient_success_iff ⟨lit "https://owa.h-ka.de", lit "u", lit "k"⟩ []
    ⟨.ok ⟨302, lit "/x?a=b", [], [], []⟩, .ok ⟨302, lit "/", [], [], []⟩⟩
    ⟨302, lit "/", [], [], []⟩ [(lit "a", lit "b")]
    (lit "https://owa.h-ka.de" ++ lit "/x?a=b") [] rfl rfl).1
  exact h.mpr ⟨rfl, rfl⟩

/-! ## Claim C5: parsing the login parameters from the initial redirect -/

theorem splitOnCh_len_two_of_mem (sep : Char) (s : List Char) (h : sep ∈ s) :
    2 ≤ (splitOnCh sep s).length := by
  induction s with
  | nil => simp at h
  | cons c rest ih =>
    simp only [splitOnCh]
    by_cases hc : c = sep
    · rw [if_pos hc]
      have hp : 0 < (splitOnCh sep rest).length :=
        List.length_pos.mpr (splitOnCh_ne_nil sep rest)
      simp only [List.length_cons]
      omega
    · rw [if_neg hc]
      have hm : sep ∈ rest := by
        rcases List.mem_cons.mp h with h1 | h1
        · exact absurd h1.symm hc
        · exact h1
      have h2 := ih hm
      cases hsp : splitOnCh sep rest with
      | nil => exact absurd hsp (splitOnCh_ne_nil sep rest)
      | cons a b =>
        rw [hsp] at h2
        simp only [List.length_cons] at h2 ⊢
        omega

theorem getLastD_splitOnCh_append (sep : Char) (x y : List Char) :
    (splitOnCh sep (x ++ sep :: y)).getLastD [] = (splitOnCh sep y).getLastD [] := by
  induction x with
  | nil =>
    simp only [List.nil_append, splitOnCh, if_pos rfl]
    cases hsp : splitOnCh sep y with
    | nil => exact absurd hsp (splitOnCh_ne_nil sep y)
    | cons a b => simp [List.getLastD_cons]
  | cons c x' ih =>
    simp only [List.cons_append, splitOnCh]
    by_cases hc : c = sep
    · rw [if_pos hc]
      cases hsp : splitOnCh sep (x' ++ sep :: y) with
      | nil => exact absurd hsp (splitOnCh_ne_nil sep _)
      | cons a b =>
        rw [hsp] at ih
        simp only [List.getLastD_cons] at ih ⊢
        exact ih
    · rw [if_neg hc]
      have hlen := splitOnCh_len_two_of_mem sep (x' ++ sep :: y)
        (List.mem_append_right x' (List.mem_cons_self sep y))
      cases hsp : splitOnCh sep (x' ++ sep :: y) with
      | nil => exact absurd hsp (splitOnCh_ne_nil sep _)
      | cons a b =>
        rw [hsp] at ih hlen
        cases b with
        | nil => simp at hlen
        | cons bb bs =>
          simp only [List.getLastD_cons] at ih ⊢
          exact ih

theorem getLastD_splitOnCh_last_seg (sep : Char) (x y : List Char) (hy : sep ∉ y) :
    (splitOnCh sep (x ++ sep :: y)).getLastD [] = y := by
  rw [getLastD_splitOnCh_append, splitOnCh_no_sep_eq sep y hy]
  rfl

/-- `queryUnescape` agrees with Go `url.QueryUnescape` on both hex-letter
cases and on the decoded byte values. -/
theorem queryUnescape_go_vectors :
    queryUnescape (lit "%2a") = .ok (lit "*")
    ∧ queryUnescape (lit "%2A") = .ok (lit "*")
    ∧ queryUnescape (lit "%4b") = .ok (lit "K")
    ∧ queryUnescape (lit "%A0") = .ok [Char.ofNat 160]
    ∧ queryUnescape (lit "a+b") = .ok (lit "a b")
    ∧ queryUnescape (lit "%zz") = .error (lit "invalid URL escape")
    ∧ queryUnescape (lit "%4") = .error (lit "invalid URL escape") := by
  exact ⟨rfl, rfl, rfl, rfl, rfl, rfl, rfl⟩

/-- C5 counterexample: a 301 response with a perfectly parseable `Location`
is rejected by `getLoginParameters` — the code accepts exactly status 302,
not "any HTTP redirect (3xx)". -/
theorem getLoginParameters_rejects_301 :
    (getLoginParameters ⟨lit "https://owa.h-ka.de", lit "u", []⟩ []
        (.ok ⟨301, lit "/x?a=b", [], [], []⟩)).2
      = .error (lit "expected a 302 redirect, but got status 301")
    ∧ 300 ≤ 301 ∧ 301 < 400 := by
  exact ⟨rfl, by decide, by decide⟩

/-- C5 (amended): the initial GET must yield exactly a 302; then a missing
`Location`, a `Location` with no `?`, or an unparsable query each fail, and
otherwise the parameters are parsed — as URL-encoded query parameters — from
the substring after the last `?` of the `Location`. -/
theorem getLoginParameters_spec (s : Server) (jar : Jar) (resp : Resp)
    (e : List Char) :
    ((getLoginParameters s jar (.error e)).2
      = .error (lit "initial GET request failed: " ++ e)) ∧
    (resp.statusCode ≠ 302 →
      (getLoginParameters s jar (.ok resp)).2
        = .error (lit "expected a 302 redirect, but got status "
          ++ lit (toString resp.statusCode))) ∧
    (resp.statusCode = 302 → resp.location = [] →
      (getLoginParameters s jar (.ok resp)).2
        = .error (lit "'Location' header not found in the response")) ∧
    (resp.statusCode = 302 → resp.location ≠ [] →
      (splitOnCh '?' resp.location).length < 2 →
      (getLoginParameters s jar (.ok resp)).2
        = .error (lit "could not parse query string from location: " ++ resp.location)) ∧
    (resp.statusCode = 302 → resp.location ≠ [] →
      2 ≤ (splitOnCh '?' resp.location).length →
      ∀ pe, parseQuery ((splitOnCh '?' resp.location).getLastD []) = .error pe →
      (getLoginParameters s jar (.ok resp)).2
        = .error (lit "could not parse query parameters: " ++ pe)) ∧
    (resp.statusCode = 302 → resp.location ≠ [] →
      2 ≤ (splitOnCh '?' resp.location).length →
      ∀ ps, parseQuery ((splitOnCh '?' resp.location).getLastD []) = .ok ps →
      (getLoginParameters s jar (.ok resp)).2
        = .ok (ps, s.targetBaseURL ++ resp.location)) ∧
    (∀ x y : List Char, '?' ∉ y →
      (splitOnCh '?' (x ++ '?' :: y)).getLastD [] = y) := by
  refine ⟨rfl, ?_, ?_, ?_, ?_, ?_, fun x y hy => getLastD_splitOnCh_last_seg '?' x y hy⟩
  · intro h
    simp only [getLoginParameters, doRequest]
    rw [if_pos h]
  · intro h1 h2
    simp only [getLoginParameters, doRequest]
    rw [if_neg (by simp [h1]), if_pos h2]
  · intro h1 h2 h3
    simp only [getLoginParameters, doRequest]
    rw [if_neg (by simp [h1]), if_neg h2, if_pos h3]
  · intro h1 h2 h3 pe hpe
    simp only [getLoginParameters, doRequest]
    rw [if_neg (by simp [h1]), if_neg h2, if_neg (by omega), hpe]
  · intro h1 h2 h3 ps hps
    simp only [getLoginParameters, doRequest]
    rw [if_neg (by simp [h1]), if_neg h2, if_neg (by omega), hps]

/-- Witness for C5's amended claim: a well-formed 302 parses; parameters come
from after the last `?`. -/
theorem getLoginParameters_spec_witness :
    (getLoginParameters ⟨lit "https://owa.h-ka.de", lit "u", []⟩ []
        (.ok ⟨302, lit "/p?x?a=b", [], [], []⟩)).2
      = .ok ([(lit "a", lit "b")], lit "https://owa.h-ka.de" ++ lit "/p?x?a=b") := by
  have h := (getLoginParameters_spec ⟨lit "https://owa.h-ka.de", lit "u", []⟩ []
    ⟨302, lit "/p?x?a=b", [], [], []⟩ []).2.2.2.2.2.1 rfl (by decide) (by decide)
    [(lit "a", lit "b")] rfl
  exact h

/-! ## Claim C10: re-authentication wipes the jar first -/

theorem getLoginParameters_jar (s : Server) (jar : Jar) (o : Except (List Char) Resp) :
    (getLoginParameters s jar o).1
      = jar ++ (match o with | .ok r => r.cookies | .error _ => []) := by
  cases o with
  | error e => simp [getLoginParameters, doRequest]
  | ok r =>
    simp only [getLoginParameters, doRequest]
    split
    · rfl
    · split
      · rfl
      · split
        · rfl
        · split <;> rfl

theorem authenticateClient_jar_from_oracle (s : Server) (jar0 : Jar) (o : AuthOracle) :
    ∀ c ∈ (authenticateClient s jar0 o).1.jar,
      (∃ r, o.initial = .ok r ∧ c ∈ r.cookies)
      ∨ (∃ r, o.login = .ok r ∧ c ∈ r.cookies) := by
  intro c hc
  unfold authenticateClient at hc
  rcases hgl : getLoginParameters s [] o.initial with ⟨jar1, res1⟩
  have hj1 : jar1 = (match o.initial with | .ok r => r.cookies | .error _ => []) := by
    have h := getLoginParameters_jar s [] o.initial
    rw [hgl] at h
    simpa using h
  rw [hgl] at hc
  cases res1 with
  | error e =>
    simp only at hc
    rw [hj1] at hc
    cases hi : o.initial with
    | error e2 => rw [hi] at hc; simp at hc
    | ok r => rw [hi] at hc; exact .inl ⟨r, rfl, by simpa using hc⟩
  | ok pr =>
    simp only at hc
    cases hl : o.login with
    | error e2 =>
      rw [hl] at hc
      simp only [submitLogin, doRequest] at hc
      rw [hj1] at hc
      cases hi : o.initial with
      | error e3 => rw [hi] at hc; simp at hc
      | ok r => rw [hi] at hc; exact .inl ⟨r, rfl, by simpa using hc⟩
    | ok r2 =>
      rw [hl] at hc
      simp only [submitLogin, doRequest] at hc
      have hc2 : c ∈ jar1 ++ r2.cookies := by
        by_cases hok : isLoginSuccessful r2 = true
        · rw [if_pos hok] at hc; simpa using hc
        · rw [if_neg hok] at hc; simpa using hc
      rcases List.mem_append.mp hc2 with hcl | hcr
      · rw [hj1] at hcl
        cases hi : o.initial with
        | error e3 => rw [hi] at hcl; simp at hcl
        | ok r => rw [hi] at hcl; exact .inl ⟨r, rfl, by simpa using hcl⟩
      · exact .inr ⟨r2, rfl, hcr⟩

/-- C10: `authenticateClient` replaces the jar with an empty one before any
network step, so whenever it returns an error the pre-call session cookies
are already gone: the run is entirely independent of the previous jar and
the resulting jar holds only cookies delivered by the (failed) handshake's
own responses. -/
theorem authenticateClient_discards_previous_session (s : Server)
    (jar0 jar0' : Jar) (o : AuthOracle) (m : List Char)
    (_herr : (authenticateClient s jar0 o).2 = some m) :
    authenticateClient s jar0 o = authenticateClient s jar0' o ∧
    ∀ c ∈ (authenticateClient s jar0 o).1.jar,
      (∃ r, o.initial = .ok r ∧ c ∈ r.cookies)
      ∨ (∃ r, o.login = .ok r ∧ c ∈ r.cookies) :=
  ⟨rfl, authenticateClient_jar_from_oracle s jar0 o⟩

/-- Witness for C10: a failed handshake leaves the same state whatever the
previous jar held. -/
theorem authenticateClient_discards_previous_session_witness :
    authenticateClient ⟨lit "https://owa.h-ka.de", lit "u", []⟩ [lit "old-cookie"]
        ⟨.error (lit "down"), .error []⟩
      = authenticateClient ⟨lit "https://owa.h-ka.de", lit "u", []⟩ []
        ⟨.error (lit "down"), .error []⟩ :=
  (authenticateClient_discards_previous_session ⟨lit "https://owa.h-ka.de", lit "u", []⟩
    [lit "old-cookie"] [] ⟨.error (lit "down"), .error []⟩
    (lit "could not get login parameters: "
      ++ (lit "initial GET request failed: " ++ lit "down")) rfl).1

/-! ## Claim C3: session-invalidation detection -/

/-- C3 counterexample: a 200 (non-redirect) response whose `Location` header
mentions `lm_auth_proxy` is treated as session invalidation even though it
is not a redirect and its body lacks the login marker: `isRedirectToLogin`
never inspects the status code. -/
theorem invalidation_without_redirect :
    (proxyRequest ⟨lit "https://owa.h-ka.de", lit "u", []⟩ (lit "/x") [] []
        (.ok ⟨200, lit "lm_auth_proxy", [], [], []⟩)).2 = some .notLoggedIn
    ∧ ¬ (300 ≤ 200 ∧ 200 < 400)
    ∧ isLoginPage [] = false := by
  exact ⟨rfl, by decide, rfl⟩

/-- C3 (amended): the "session invalidated" error is raised iff the body
contains the login-page marker or the `Location` header references the
login-proxy endpoint — regardless of the status code; otherwise the
(possibly rewritten) response is written with the original status code. -/
theorem proxyRequest_invalidation_iff (s : Server) (path rawQuery : List Char)
    (jar : Jar) (resp : Resp)
    (hauth : isAuthorizedRequest s path = true) :
    ((proxyRequest s path rawQuery jar (.ok resp)).2 = some .notLoggedIn ↔
      isLoginPage resp.body = true
        ∨ containsSub resp.location (lit "lm_auth_proxy") = true) ∧
    ((proxyRequest s path rawQuery jar (.ok resp)).2 = some .notLoggedIn →
      (proxyRequest s path rawQuery jar (.ok resp)).1.writes = []) ∧
    ((isLoginPage resp.body || isRedirectToLogin resp) = false →
      (proxyRequest s path rawQuery jar (.ok resp)).1.writes
        = [⟨resp.statusCode,
            (if containsSub resp.contentType (lit "text/html") then
              replaceHTMLContent s resp.body else resp.body),
            (if 300 ≤ resp.statusCode ∧ resp.statusCode < 400 then
              some (getLocation s resp.location) else none)⟩]) := by
  obtain ⟨uri, hres⟩ := resolve_ok_of_authorized s path rawQuery hauth
  have hred : proxyRequest s path rawQuery jar (.ok resp)
      = (if isLoginPage resp.body || isRedirectToLogin resp then
          (⟨[], jar ++ resp.cookies, true⟩, some .notLoggedIn)
        else
          (⟨[⟨resp.statusCode,
              (if containsSub resp.contentType (lit "text/html") then
                replaceHTMLContent s resp.body else resp.body),
              (if 300 ≤ resp.statusCode ∧ resp.statusCode < 400 then
                some (getLocation s resp.location) else none)⟩],
            jar ++ resp.cookies, true⟩, none)) := by
    unfold proxyRequest
    rw [if_neg (by simp [hauth]), hres]
  refine ⟨?_, ?_, ?_⟩
  · rw [hred]
    cases hinv : (isLoginPage resp.body || isRedirectToLogin resp) with
    | true =>
      simp only [if_pos rfl]
      simp only [Bool.or_eq_true, isRedirectToLogin] at hinv
      simp [hinv]
    | false =>
      have h1 : isLoginPage resp.body = false := by
        cases hh : isLoginPage resp.body
        · rfl
        · rw [hh] at hinv; simp at hinv
      have h2 : isRedirectToLogin resp = false := by
        cases hh : isRedirectToLogin resp
        · rfl
        · rw [hh] at hinv; simp at hinv
      rw [isRedirectToLogin] at h2
      simp only [Bool.false_eq_true, if_false]
      simp [h1, h2]
  · rw [hred]
    cases hinv : (isLoginPage resp.body || isRedirectToLogin resp) with
    | true => intro _; simp
    | false => intro hcon; simp at hcon
  · intro hinv
    rw [hred, if_neg (by simp [hinv])]

/-- Witness for C3's amended claim: a clean 200 response passes through with
its original status. -/
theorem proxyRequest_invalidation_iff_witness :
    (proxyRequest ⟨lit "https://owa.h-ka.de", lit "u", []⟩ (lit "/x") [] []
        (.ok ⟨200, [], [], lit "hello", []⟩)).1.writes
      = [⟨200, lit "hello", none⟩] := by
  have h := (proxyRequest_invalidation_iff ⟨lit "https://owa.h-ka.de", lit "u", []⟩
    (lit "/x") [] [] ⟨200, [], [], lit "hello", []⟩ rfl).2.2 rfl
  rw [h]
  rfl

/-! ## Claim C1: the `ServeHTTP` retry policy -/

theorem proxyRequest_unauthorized_writes (s : Server) (path rawQuery : List Char)
    (jar : Jar) (up : Except (Bool × List Char) Resp)
    (h : (proxyRequest s path rawQuery jar up).2 = some .unauthorized) :
    (proxyRequest s path rawQuery jar up).1.writes
      = [⟨401, lit "unauthorized" ++ ['\n'], none⟩] := by
  by_cases ha : isAuthorizedRequest s path = true
  · exfalso
    unfold proxyRequest at h
    rw [if_neg (by simp [ha])] at h
    cases hres : resolveTargetRequestURI s path rawQuery with
    | error m => rw [hres] at h; simp at h
    | ok u =>
      rw [hres] at h
      cases up with
      | error dm =>
        rcases dm with ⟨d, m⟩
        simp at h
      | ok resp =>
        by_cases hinv : (isLoginPage resp.body || isRedirectToLogin resp) = true
        · simp [hinv] at h
        · simp [hinv] at h
  · unfold proxyRequest
    rw [if_pos ha]

/-- C1: the `ServeHTTP` retry policy.  On a successful first attempt the
response of that attempt is everything the client sees.  On
`errUnauthorized` handling stops with the already-written 401.  On a
deadline error a 504 is written and no re-authentication happens.  On any
other error exactly one re-authentication runs: its failure yields one 502
prefixed "re-authentication failed: ", its success yields exactly one more
proxy attempt whose failure yields one 502 prefixed "proxy error after
re-authentication: ".  No run has more than 2 attempts or more than 1
re-authentication. -/
theorem serveHTTP_retry_policy (s : Server) (path rawQuery : List Char)
    (jar0 : Jar) (o : ServeOracle) :
    (serveHTTP s path rawQuery jar0 o).attempts ≤ 2 ∧
    (serveHTTP s path rawQuery jar0 o).reauths ≤ 1 ∧
    ((proxyRequest s path rawQuery jar0 o.up1).2 = none →
      serveHTTP s path rawQuery jar0 o
        = ⟨(proxyRequest s path rawQuery jar0 o.up1).1.writes,
           (proxyRequest s path rawQuery jar0 o.up1).1.jar, 1, 0, 0⟩) ∧
    ((proxyRequest s path rawQuery jar0 o.up1).2 = some .unauthorized →
      serveHTTP s path rawQuery jar0 o
        = ⟨[⟨401, lit "unauthorized" ++ ['\n'], none⟩],
           (proxyRequest s path rawQuery jar0 o.up1).1.jar, 1, 0, 0⟩) ∧
    (∀ m, (proxyRequest s path rawQuery jar0 o.up1).2 = some (.transport true m) →
      serveHTTP s path rawQuery jar0 o
        = ⟨(proxyRequest s path rawQuery jar0 o.up1).1.writes
            ++ [⟨504, lit "request timed out: " ++ m ++ ['\n'], none⟩],
           (proxyRequest s path rawQuery jar0 o.up1).1.jar, 1, 0, 0⟩) ∧
    (∀ e1, (proxyRequest s path rawQuery jar0 o.up1).2 = some e1 →
      e1 ≠ .unauthorized → e1.isDeadline = false →
      (∀ a m,
        authenticateClient s (proxyRequest s path rawQuery jar0 o.up1).1.jar o.auth
            = (a, some m) →
        serveHTTP s path rawQuery jar0 o
          = ⟨(proxyRequest s path rawQuery jar0 o.up1).1.writes
              ++ [⟨502, lit "re-authentication failed: " ++ m ++ ['\n'], none⟩],
             a.jar, 1, 1, a.otpConsumed⟩) ∧
      (∀ a,
        authenticateClient s (proxyRequest s path rawQuery jar0 o.up1).1.jar o.auth
            = (a, none) →
        ((proxyRequest s path rawQuery a.jar o.up2).2 = none →
          serveHTTP s path rawQuery jar0 o
            = ⟨(proxyRequest s path rawQuery jar0 o.up1).1.writes
                ++ (proxyRequest s path rawQuery a.jar o.up2).1.writes,
               (proxyRequest s path rawQuery a.jar o.up2).1.jar, 2, 1, a.otpConsumed⟩) ∧
        (∀ e2, (proxyRequest s path rawQuery a.jar o.up2).2 = some e2 →
          serveHTTP s path rawQuery jar0 o
            = ⟨(proxyRequest s path rawQuery jar0 o.up1).1.writes
                ++ (proxyRequest s path rawQuery a.jar o.up2).1.writes
                ++ [⟨502, lit "proxy error after re-authentication: "
                    ++ e2.text ++ ['\n'], none⟩],
               (proxyRequest s path rawQuery a.jar o.up2).1.jar, 2, 1,
               a.otpConsumed⟩))) := by
  have hw401 := proxyRequest_unauthorized_writes s path rawQuery jar0 o.up1
  unfold serveHTTP
  rcases hp1 : proxyRequest s path rawQuery jar0 o.up1 with ⟨o1, e1⟩
  rw [hp1] at hw401
  cases e1 with
  | none =>
    refine ⟨by simp, by simp, fun _ => by simp, ?_, ?_, ?_⟩
    · intro h; simp at h
    · intro m h; simp at h
    · intro e h; simp at h
  | some e =>
    simp only []
    by_cases hu : e = .unauthorized
    · subst hu
      rw [if_pos rfl]
      refine ⟨by simp, by simp, ?_, ?_, ?_, ?_⟩
      · intro h; simp at h
      · intro _
        rw [hw401 rfl]
      · intro m h
        exfalso
        simp only [Option.some.injEq] at h
        cases h
      · intro e h hne _
        simp only [Option.some.injEq] at h
        exact absurd h.symm hne
    · rw [if_neg hu]
      by_cases hd : e.isDeadline = true
      · rw [if_pos hd]
        have hm : ∃ m, e = .transport true m := by
          cases e with
          | transport d m =>
            cases d with
            | true => exact ⟨m, rfl⟩
            | false => simp [PrxErr.isDeadline] at hd
          | unauthorized => simp [PrxErr.isDeadline] at hd
          | resolveURI m => simp [PrxErr.isDeadline] at hd
          | notLoggedIn => simp [PrxErr.isDeadline] at hd
        obtain ⟨m, rfl⟩ := hm
        refine ⟨by simp, by simp, ?_, ?_, ?_, ?_⟩
        · intro h; simp at h
        · intro h; simp at h
        · intro m' h
          simp only [Option.some.injEq, PrxErr.transport.injEq] at h
          simp [h.2, PrxErr.text]
        · intro e h hne hdd
          simp only [Option.some.injEq] at h
          rw [← h] at hdd
          simp [PrxErr.isDeadline] at hdd
      · rw [if_neg hd]
        refine ⟨?_, ?_, ?_, ?_, ?_, ?_⟩
        · rcases ha : authenticateClient s o1.jar o.auth with ⟨a, am⟩
          cases am with
          | some m => simp
          | none =>
            simp only []
            rcases hp2 : proxyRequest s path rawQuery a.jar o.up2 with ⟨o2, e2⟩
            cases e2 <;> simp
        · rcases ha : authenticateClient s o1.jar o.auth with ⟨a, am⟩
          cases am with
          | some m => simp
          | none =>
            simp only []
            rcases hp2 : proxyRequest s path rawQuery a.jar o.up2 with ⟨o2, e2⟩
            cases e2 <;> simp
        · intro h; simp at h
        · intro h
          simp only [Option.some.injEq] at h
          exact absurd h hu
        · intro m h
          simp only [Option.some.injEq] at h
          rw [h] at hd
          simp [PrxErr.isDeadline] at hd
        · intro e' he' _ _
          refine ⟨?_, ?_⟩
          · intro a m ham
            rw [ham]
          · intro a ham
            rw [ham]
            simp only []
            rcases hp2 : proxyRequest s path rawQuery a.jar o.up2 with ⟨o2, e2⟩
            refine ⟨?_, ?_⟩
            · intro h2
              cases e2 with
              | some x => simp at h2
              | none => simp
            · intro e2v h2
              cases e2 with
              | none => simp at h2
              | some e2w =>
                simp only [Option.some.injEq] at h2
                subst h2
                simp [List.append_assoc]

/-- Witness for C1: a non-deadline transport failure followed by a failed
re-authentication produces the single 502 with the documented prefix. -/
theorem serveHTTP_retry_policy_witness :
    serveHTTP ⟨lit "https://owa.h-ka.de", lit "u", []⟩ (lit "/x") [] []
        ⟨.error (false, lit "boom"), ⟨.error (lit "down"), .error []⟩, .error (false, [])⟩
      = ⟨[⟨502, lit "re-authentication failed: "
            ++ (lit "could not get login parameters: "
              ++ (lit "initial GET request failed: " ++ lit "down")) ++ ['\n'], none⟩],
         [], 1, 1, 0⟩ := by
  have h := ((serveHTTP_retry_policy ⟨lit "https://owa.h-ka.de", lit "u", []⟩ (lit "/x") [] []
    ⟨.error (false, lit "boom"), ⟨.error (lit "down"), .error []⟩, .error (false, [])⟩
    ).2.2.2.2.2 (.transport false (lit "boom")) rfl (by decide) rfl).1
    ⟨[], 0⟩ (lit "could not get login parameters: "
      ++ (lit "initial GET request failed: " ++ lit "down")) rfl
  exact h


/-! ## Claim C7, part 1: exact characterization of `strings.ReplaceAll`

`splitOnSub pat` performs the same left-to-right, non-overlapping scan as
`replaceAll pat rep`, returning the pieces between the occurrences it finds.
Joining the pieces with `pat` recovers the input, joining them with `rep` is
exactly `replaceAll`, and no piece contains `pat`: together these say that
`ReplaceAll` rewrites every occurrence its scan finds and leaves all other
text unchanged, for arbitrary input. -/

/-- Go `strings.Join` for a list-valued separator. -/
def joinWith (sep : List Char) : List (List Char) → List Char
  | [] => []
  | [x] => x
  | x :: xs => x ++ sep ++ joinWith sep xs

/-- The pieces of `s` between the leftmost non-overlapping occurrences of
`pat` — the same scan as `replaceAll`. -/
def splitOnSub (pat : List Char) : List Char → List (List Char)
  | [] => [[]]
  | c :: cs =>
    if pat.isPrefixOf (c :: cs) then
      [] :: splitOnSub pat (List.drop (pat.length - 1) cs)
    else
      match splitOnSub pat cs with
      | [] => [[c]]
      | h :: t => (c :: h) :: t
termination_by s => s.length
decreasing_by
  · simp only [List.length_drop, List.length_cons]
    omega
  · simp

theorem splitOnSub_ne_nil (pat s : List Char) : splitOnSub pat s ≠ [] := by
  suffices H : ∀ n (s : List Char), s.length < n → splitOnSub pat s ≠ [] from
    H (s.length + 1) s (Nat.lt_succ_self _)
  intro n
  induction n with
  | zero => intro s h; omega
  | succ n ih =>
    intro s hs
    cases s with
    | nil => simp [splitOnSub]
    | cons c cs =>
      simp only [splitOnSub]
      split
      · simp
      · cases h : splitOnSub pat cs with
        | nil =>
          exact absurd h (ih cs (by simp only [List.length_cons] at hs; omega))
        | cons hh tt => simp

theorem joinWith_cons_cons (sep c : _) (h : List Char) (t : List (List Char)) :
    joinWith sep ((c :: h) :: t) = c :: joinWith sep (h :: t) := by
  cases t <;> simp [joinWith]

/-- Joining the pieces with the pattern itself recovers the input. -/
theorem joinWith_splitOnSub (pat : List Char) (hpne : pat ≠ []) (s : List Char) :
    joinWith pat (splitOnSub pat s) = s := by
  suffices H : ∀ n (s : List Char), s.length < n →
      joinWith pat (splitOnSub pat s) = s from
    H (s.length + 1) s (Nat.lt_succ_self _)
  intro n
  induction n with
  | zero => intro s h; omega
  | succ n ih =>
    intro s hs
    cases s with
    | nil => simp [splitOnSub, joinWith]
    | cons c cs =>
      simp only [splitOnSub]
      split
      · rename_i hpre
        obtain ⟨t, ht⟩ := (isPrefixOf_iff_ex pat (c :: cs)).mp hpre
        cases hp : pat with
        | nil => exact absurd hp hpne
        | cons p0 ps =>
          subst hp
          have hct : c :: cs = p0 :: (ps ++ t) := by simpa using ht
          have hdrop : List.drop ((p0 :: ps).length - 1) cs = t := by
            cases hct
            simp only [List.length_cons, Nat.add_sub_cancel]
            exact List.drop_left ps t
          rw [hdrop]
          cases hsp : splitOnSub (p0 :: ps) t with
          | nil => exact absurd hsp (splitOnSub_ne_nil _ t)
          | cons hh tt =>
            have hjt : joinWith (p0 :: ps) (splitOnSub (p0 :: ps) t) = t := by
              have hlt : t.length < n := by
                cases hct
                simp only [List.length_cons, List.length_append] at hs ⊢
                omega
              exact ih t hlt
            rw [hsp] at hjt
            simp only [joinWith, List.nil_append]
            rw [hjt, ht]
      · cases hsp : splitOnSub pat cs with
        | nil => exact absurd hsp (splitOnSub_ne_nil pat cs)
        | cons hh tt =>
          have hj : joinWith pat (splitOnSub pat cs) = cs :=
            ih cs (by simp only [List.length_cons] at hs; omega)
          rw [hsp] at hj
          rw [joinWith_cons_cons, hj]

/-- `ReplaceAll` is: split on the occurrences, join with the replacement. -/
theorem replaceAll_eq_joinWith (pat rep : List Char) (s : List Char) :
    replaceAll pat rep s = joinWith rep (splitOnSub pat s) := by
  suffices H : ∀ n (s : List Char), s.length < n →
      replaceAll pat rep s = joinWith rep (splitOnSub pat s) from
    H (s.length + 1) s (Nat.lt_succ_self _)
  intro n
  induction n with
  | zero => intro s h; omega
  | succ n ih =>
    intro s hs
    cases s with
    | nil => simp [replaceAll, splitOnSub, joinWith]
    | cons c cs =>
      simp only [replaceAll, splitOnSub]
      split
      · cases hsp : splitOnSub pat (List.drop (pat.length - 1) cs) with
        | nil => exact absurd hsp (splitOnSub_ne_nil _ _)
        | cons hh tt =>
          have hj := ih (List.drop (pat.length - 1) cs)
            (by simp only [List.length_drop, List.length_cons] at hs ⊢; omega)
          rw [hsp] at hj
          simp only [joinWith, List.nil_append]
          rw [hj]
      · cases hsp : splitOnSub pat cs with
        | nil => exact absurd hsp (splitOnSub_ne_nil pat cs)
        | cons hh tt =>
          have hj := ih cs (by simp only [List.length_cons] at hs; omega)
          rw [hsp] at hj
          rw [joinWith_cons_cons, hj]

/-- The first piece of the split is a prefix of the input. -/
theorem splitOnSub_head_isPref (pat : List Char) (hpne : pat ≠ []) (s : List Char) :
    ∀ hh tt, splitOnSub pat s = hh :: tt → ∃ t, s = hh ++ t := by
  intro hh tt hsp
  have hj := joinWith_splitOnSub pat hpne s
  rw [hsp] at hj
  cases tt with
  | nil => exact ⟨[], by simpa [joinWith] using hj.symm⟩
  | cons x xs =>
    refine ⟨pat ++ joinWith pat (x :: xs), ?_⟩
    simp only [joinWith] at hj
    rw [← hj]
    simp

/-- No piece of the split contains an occurrence of the pattern: the scan
misses nothing. -/
theorem splitOnSub_pieces_free (pat : List Char) (hpne : pat ≠ []) (s : List Char) :
    ∀ g ∈ splitOnSub pat s, ¬ ∃ x y, g = x ++ pat ++ y := by
  suffices H : ∀ n (s : List Char), s.length < n →
      ∀ g ∈ splitOnSub pat s, ¬ ∃ x y, g = x ++ pat ++ y from
    fun g hg => H (s.length + 1) s (Nat.lt_succ_self _) g hg
  intro n
  induction n with
  | zero => intro s h; omega
  | succ n ih =>
    intro s hs g hg
    cases s with
    | nil =>
      simp only [splitOnSub, List.mem_singleton] at hg
      subst hg
      rintro ⟨x, y, hxy⟩
      have hlen := congrArg List.length hxy
      simp only [List.length_append, List.length_nil] at hlen
      have hp0 : pat.length = 0 := by omega
      exact hpne (List.length_eq_zero.mp hp0)
    | cons c cs =>
      simp only [splitOnSub] at hg
      split at hg
      · rcases List.mem_cons.mp hg with rfl | hg2
        · rintro ⟨x, y, hxy⟩
          have hlen := congrArg List.length hxy
          simp only [List.length_append, List.length_nil] at hlen
          have hp0 : pat.length = 0 := by omega
          exact hpne (List.length_eq_zero.mp hp0)
        · exact ih _ (by simp only [List.length_drop, List.length_cons] at hs ⊢; omega) g hg2
      · rename_i hnpre
        cases hsp : splitOnSub pat cs with
        | nil => exact absurd hsp (splitOnSub_ne_nil pat cs)
        | cons hh tt =>
          rw [hsp] at hg
          have hcs : cs.length < n := by simp only [List.length_cons] at hs; omega
          rcases List.mem_cons.mp hg with rfl | hg2
          · rintro ⟨x, y, hxy⟩
            cases x with
            | nil =>
              have hpre : pat.isPrefixOf (c :: cs) = true := by
                obtain ⟨t0, ht0⟩ := splitOnSub_head_isPref pat hpne cs hh tt hsp
                refine (isPrefixOf_iff_ex pat (c :: cs)).mpr ⟨y ++ t0, ?_⟩
                simp only [List.nil_append] at hxy
                rw [ht0, ← List.cons_append, hxy, List.append_assoc]
              exact absurd hpre hnpre
            | cons x0 x' =>
              have hx : hh = x' ++ pat ++ y := by
                have hxy2 := hxy
                simp only [List.cons_append] at hxy2
                injection hxy2 with h1 h2
              exact ih cs hcs hh (by rw [hsp]; exact List.mem_cons_self hh tt) ⟨x', y, hx⟩
          · exact ih cs hcs g (by rw [hsp]; exact List.mem_cons_of_mem hh hg2)

/-! ## Claim C7, part 2: the four URL-rewriting stems

Every pattern replaced by `replaceHTMLContent` starts with one of four stems
(`URL=`, `action="`, `href="`, `src="`). The lemmas below show the stems
cannot overlap each other, themselves, or stem-free text, which lets the
ten-stage `ReplaceAll` chain be tracked across bodies holding arbitrarily
many pattern occurrences. -/

def stems : List (List Char) :=
  [lit "URL=", lit "action=\"", lit "href=\"", lit "src=\""]

/-- `g` contains none of the four stems (so no stage can touch it). -/
def stemFreeB (g : List Char) : Bool :=
  stems.all fun st => !(containsSub g st)

theorem containsSub_iff_ex (s q : List Char) :
    containsSub s q = true ↔ ∃ x y, s = x ++ q ++ y := by
  induction s with
  | nil =>
    simp only [containsSub, List.isEmpty_iff]
    constructor
    · rintro rfl
      exact ⟨[], [], rfl⟩
    · rintro ⟨x, y, hxy⟩
      have hlen := congrArg List.length hxy
      simp only [List.length_append, List.length_nil] at hlen
      have hq : q.length = 0 := by omega
      exact List.length_eq_zero.mp hq
  | cons c cs ih =>
    simp only [containsSub, Bool.or_eq_true, isPrefixOf_iff_ex, ih]
    constructor
    · rintro (⟨t, ht⟩ | ⟨x, y, hxy⟩)
      · exact ⟨[], t, by simpa using ht⟩
      · exact ⟨c :: x, y, by simp [hxy]⟩
    · rintro ⟨x, y, hxy⟩
      cases x with
      | nil => exact Or.inl ⟨y, by simpa using hxy⟩
      | cons x0 x' =>
        right
        simp only [List.cons_append] at hxy
        injection hxy with h1 h2
        exact ⟨x', y, h2⟩

theorem stemFreeB_no_occ (g st : List Char) (hg : stemFreeB g = true)
    (hst : st ∈ stems) : containsSub g st = false := by
  have hall := List.all_eq_true.mp hg st hst
  simpa using hall

/-- None of a stem's proper suffixes meets another stem at either end. -/
theorem stems_cross : ∀ st ∈ stems, ∀ q ∈ stems, ∀ k ∈ List.range st.length,
    0 < k → (List.drop k st).isPrefixOf q = false ∧
      q.isPrefixOf (List.drop k st) = false := by
  decide

theorem stems_mark : ∀ st ∈ stems, st ≠ [] ∧ '/' ∉ st ∧ '=' ∈ st := by
  decide

/-- Dropping past the first list. -/
theorem drop_append_ge (l1 l2 : List Char) (k : Nat) (h : l1.length ≤ k) :
    List.drop k (l1 ++ l2) = List.drop (k - l1.length) l2 := by
  induction l1 generalizing k with
  | nil => simp
  | cons c l1 ih =>
    cases k with
    | zero => simp at h
    | succ k' =>
      simp only [List.cons_append, List.drop_succ_cons, List.length_cons,
        Nat.succ_sub_succ]
      exact ih k' (by simpa using h)

/-- A prefix of `a ++ R` is inside `a`, or covers `a` and continues into `R`. -/
theorem isPrefixOf_append_cases (p a R : List Char)
    (h : p.isPrefixOf (a ++ R) = true) :
    p.isPrefixOf a = true ∨
      (a.length < p.length ∧ a.isPrefixOf p = true ∧
        (List.drop a.length p).isPrefixOf R = true) := by
  obtain ⟨t, ht⟩ := (isPrefixOf_iff_ex _ _).mp h
  rcases le_or_lt p.length a.length with hle | hlt
  · left
    refine (isPrefixOf_iff_ex _ _).mpr ⟨List.drop p.length a, ?_⟩
    have h1 : (a ++ R).take p.length = a.take p.length :=
      List.take_append_of_le_length hle
    have h2 : (p ++ t).take p.length = p := List.take_left p t
    rw [ht] at h1
    rw [h2] at h1
    calc a = a.take p.length ++ a.drop p.length := (List.take_append_drop _ a).symm
    _ = p ++ a.drop p.length := by rw [← h1]
  · right
    have h1 : (a ++ R).take a.length = a := List.take_left a R
    have h2 : (p ++ t).take a.length = p.take a.length :=
      List.take_append_of_le_length (Nat.le_of_lt hlt)
    rw [ht] at h1
    rw [h2] at h1
    refine ⟨hlt, (isPrefixOf_iff_ex _ _).mpr ⟨List.drop a.length p, ?_⟩, ?_⟩
    · calc p = p.take a.length ++ p.drop a.length := (List.take_append_drop _ p).symm
      _ = a ++ List.drop a.length p := by rw [h1]
    · refine (isPrefixOf_iff_ex _ _).mpr ⟨t, ?_⟩
      have h3 : (a ++ R).drop a.length = R := List.drop_left a R
      have h4 : (p ++ t).drop a.length = List.drop a.length p ++ t :=
        List.drop_append_of_le_length (Nat.le_of_lt hlt)
      rw [ht] at h3
      rw [h4] at h3
      exact h3.symm

/-- A `replaceAll` scan standing on an occurrence rewrites it and moves on. -/
theorem replaceAll_cons_hit (p r S : List Char) (hpne : p ≠ []) :
    replaceAll p r (p ++ S) = r ++ replaceAll p r S := by
  cases p with
  | nil => exact absurd rfl hpne
  | cons p0 ps =>
    simp only [List.cons_append, replaceAll]
    rw [if_pos (by
      refine (isPrefixOf_iff_ex _ _).mpr ⟨S, ?_⟩
      simp)]
    have hd : List.drop ((p0 :: ps).length - 1) (ps ++ S) = S := by
      simp only [List.length_cons, Nat.add_sub_cancel]
      exact List.drop_left ps S
    rw [hd]

/-- A `replaceAll` scan walks over `a` untouched when no suffix of `a`
(continued into `S`) starts an occurrence. -/
theorem replaceAll_skip_pref (p r a S : List Char)
    (h : ∀ k, k < a.length → p.isPrefixOf (List.drop k a ++ S) = false) :
    replaceAll p r (a ++ S) = a ++ replaceAll p r S := by
  induction a with
  | nil => simp
  | cons c a' ih =>
    simp only [List.cons_append, replaceAll]
    rw [if_neg (by
      have h0 := h 0 (by simp)
      simp only [List.drop_zero, List.cons_append] at h0
      simp [h0])]
    rw [ih fun k hk => by
      have hk1 := h (k + 1) (by simp only [List.length_cons]; omega)
      simpa using hk1]

/-- A position-`n` character clash refutes prefix-hood. -/
theorem not_pref_of_mismatch (p T S : List Char) (n : Nat)
    (hnT : n < T.length) (hnp : n < p.length) (hne : T.get? n ≠ p.get? n) :
    p.isPrefixOf (T ++ S) = false := by
  cases hb : p.isPrefixOf (T ++ S) with
  | false => rfl
  | true =>
    exfalso
    obtain ⟨t, ht⟩ := (isPrefixOf_iff_ex _ _).mp hb
    have h1 : (T ++ S).get? n = T.get? n := List.get?_append hnT
    have h2 : (p ++ t).get? n = p.get? n := List.get?_append hnp
    rw [ht] at h1
    rw [h2] at h1
    exact hne h1.symm

/-- No stem-headed pattern starts strictly inside a token of the shape
`stem ++ tail` with an `=`-free tail ending in `/`. -/
theorem no_match_inside_tok (p pstem : List Char) (hp : ∃ pt, p = pstem ++ pt)
    (hpstem : pstem ∈ stems) (st tl : List Char) (hst : st ∈ stems)
    (htl2 : tl.count '=' = 0) (htl3 : ∃ tl0, tl = tl0 ++ ['/'])
    (k : Nat) (hk : 0 < k) (hklt : k < (st ++ tl).length) (S : List Char) :
    p.isPrefixOf (List.drop k (st ++ tl) ++ S) = false := by
  cases hb : p.isPrefixOf (List.drop k (st ++ tl) ++ S) with
  | false => rfl
  | true =>
    exfalso
    obtain ⟨pt, hpt⟩ := hp
    have hps : pstem.isPrefixOf (List.drop k (st ++ tl) ++ S) = true := by
      obtain ⟨t, ht⟩ := (isPrefixOf_iff_ex _ _).mp hb
      refine (isPrefixOf_iff_ex _ _).mpr ⟨pt ++ t, ?_⟩
      rw [ht, hpt]
      simp
    rcases Nat.lt_or_ge k st.length with hkst | hkst
    · have hdk : List.drop k (st ++ tl) = List.drop k st ++ tl :=
        List.drop_append_of_le_length (Nat.le_of_lt hkst)
      rw [hdk, List.append_assoc] at hps
      have hcross := stems_cross st hst pstem hpstem k
        (List.mem_range.mpr hkst) hk
      rcases isPrefixOf_append_cases pstem (List.drop k st) (tl ++ S) hps with
        h1 | ⟨h2a, h2, h2c⟩
      · rw [hcross.2] at h1
        exact Bool.false_ne_true h1
      · rw [hcross.1] at h2
        exact Bool.false_ne_true h2
    · obtain ⟨tl0, htl0⟩ := htl3
      have hdk : List.drop k (st ++ tl) = List.drop (k - st.length) tl :=
        drop_append_ge st tl k hkst
      rw [hdk] at hps
      have hmlt : k - st.length < tl.length := by
        simp only [List.length_append] at hklt
        omega
      rcases isPrefixOf_append_cases pstem (List.drop (k - st.length) tl) S hps
        with h1 | ⟨h2a, h2, h2c⟩
      · obtain ⟨u, hu⟩ := (isPrefixOf_iff_ex _ _).mp h1
        have hmem : '=' ∈ tl := by
          have h1m : '=' ∈ List.drop (k - st.length) tl := by
            rw [hu]
            exact List.mem_append_left u ((stems_mark pstem hpstem).2.2)
          have htd := List.take_append_drop (k - st.length) tl
          rw [← htd]
          exact List.mem_append_right _ h1m
        exact absurd hmem (List.count_eq_zero.mp htl2)
      · obtain ⟨u, hu⟩ := (isPrefixOf_iff_ex _ _).mp h2
        have hslash : '/' ∈ List.drop (k - st.length) tl := by
          rw [htl0]
          rw [List.drop_append_of_le_length (by
            have hlen := congrArg List.length htl0
            simp only [List.length_append, List.length_cons,
              List.length_nil] at hlen
            omega)]
          exact List.mem_append_right _ (by simp)
        have hslash2 : '/' ∈ pstem := by
          rw [hu]
          exact List.mem_append_left u hslash
        exact absurd hslash2 (stems_mark pstem hpstem).2.1

/-- No stem-headed pattern starts inside a stem-free gap, when what follows
the gap is empty or itself stem-headed. -/
theorem no_match_inside_gap (p pstem : List Char) (hp : ∃ pt, p = pstem ++ pt)
    (hpstem : pstem ∈ stems) (g : List Char) (hg : stemFreeB g = true)
    (k : Nat) (hk : k < g.length) (S : List Char)
    (hS : S = [] ∨ ∃ st2 rest, st2 ∈ stems ∧ S = st2 ++ rest) :
    p.isPrefixOf (List.drop k g ++ S) = false := by
  cases hb : p.isPrefixOf (List.drop k g ++ S) with
  | false => rfl
  | true =>
    exfalso
    obtain ⟨pt, hpt⟩ := hp
    have hps : pstem.isPrefixOf (List.drop k g ++ S) = true := by
      obtain ⟨t, ht⟩ := (isPrefixOf_iff_ex _ _).mp hb
      refine (isPrefixOf_iff_ex _ _).mpr ⟨pt ++ t, ?_⟩
      rw [ht, hpt]
      simp
    rcases isPrefixOf_append_cases pstem (List.drop k g) S hps with
      h1 | ⟨hlen, hmid, hdrop⟩
    · obtain ⟨u, hu⟩ := (isPrefixOf_iff_ex _ _).mp h1
      have hocc : containsSub g pstem = true := by
        refine (containsSub_iff_ex g pstem).mpr ⟨g.take k, u, ?_⟩
        conv_lhs => rw [← List.take_append_drop k g]
        rw [hu]
        simp
      rw [stemFreeB_no_occ g pstem hg hpstem] at hocc
      exact Bool.false_ne_true hocc
    · have hj1 : 0 < (List.drop k g).length := by
        simp only [List.length_drop]
        omega
      rcases hS with rfl | ⟨st2, rest, hst2, rfl⟩
      · obtain ⟨u, hu⟩ := (isPrefixOf_iff_ex _ _).mp hdrop
        have hlen2 := congrArg List.length hu
        simp only [List.length_nil, List.length_append, List.length_drop]
          at hlen2
        simp only [List.length_drop] at hlen
        omega
      · have hcross := stems_cross pstem hpstem st2 hst2 (List.drop k g).length
          (List.mem_range.mpr hlen) hj1
        rcases isPrefixOf_append_cases (List.drop (List.drop k g).length pstem)
          st2 rest hdrop with h2 | ⟨h3a, h3, h3c⟩
        · rw [hcross.1] at h2
          exact Bool.false_ne_true h2
        · rw [hcross.2] at h3
          exact Bool.false_ne_true h3

/-! ## Claim C7, part 3: token decompositions of HTML bodies

A body is modelled as a concatenation of tokens: free-text gaps holding no
stem, and pattern tokens (`URL=/`, the three root-relative attribute
patterns, the three absolute-base attribute patterns). Adjacent gaps are
merged. The scan lemma below tracks one `ReplaceAll` stage across such a
concatenation: marked tokens are exactly the stage's occurrences, and
nothing else — in particular no text straddling token borders — can match. -/

inductive HTok where
  | gap (g : List Char)
  | url
  | act
  | href
  | src
  | actB
  | hrefB
  | srcB

def HTok.isGap : HTok → Bool
  | .gap _ => true
  | _ => false

def headNotGap : List HTok → Bool
  | [] => true
  | t :: _ => !t.isGap

def tokOK : HTok → List HTok → Bool
  | .gap g, ts => stemFreeB g && headNotGap ts
  | _, _ => true

/-- Well-formed token lists: gaps are stem-free and never adjacent. -/
def wfB : List HTok → Bool
  | [] => true
  | t :: ts => tokOK t ts && wfB ts

def catTok (f : HTok → List Char) : List HTok → List Char
  | [] => []
  | t :: ts => f t ++ catTok f ts

theorem neval {o1 o2 : Option Char} (c1 c2 : Char) (h1 : o1 = some c1)
    (h2 : o2 = some c2) (h : c1 ≠ c2) : o1 ≠ o2 := by
  rw [h1, h2]
  simp [h]

theorem isGap_eq (t : HTok) (h : t.isGap = true) : ∃ g, t = .gap g := by
  cases t with
  | gap g => exact ⟨g, rfl⟩
  | url => simp [HTok.isGap] at h
  | act => simp [HTok.isGap] at h
  | href => simp [HTok.isGap] at h
  | src => simp [HTok.isGap] at h
  | actB => simp [HTok.isGap] at h
  | hrefB => simp [HTok.isGap] at h
  | srcB => simp [HTok.isGap] at h

/-- One stage walks a stem-free gap unchanged (whatever follows is empty or
stem-headed). -/
theorem scan_step_gap (p r pstem : List Char) (hp : ∃ pt, p = pstem ++ pt)
    (hpstem : pstem ∈ stems) (g : List Char) (hg : stemFreeB g = true)
    (S : List Char) (hS : S = [] ∨ ∃ st2 rest, st2 ∈ stems ∧ S = st2 ++ rest) :
    replaceAll p r (g ++ S) = g ++ replaceAll p r S :=
  replaceAll_skip_pref p r g S fun k hk =>
    no_match_inside_gap p pstem hp hpstem g hg k hk S hS

/-- One stage rewrites a marked token and walks any other token unchanged. -/
theorem scan_step_tok (p r pstem : List Char) (hp : ∃ pt, p = pstem ++ pt)
    (hpstem : pstem ∈ stems) (hpne : p ≠ [])
    (f f' : HTok → List Char) (mark : HTok → Bool)
    (hmarked : ∀ t, mark t = true → f t = p ∧ f' t = r)
    (hshape : ∀ t, t.isGap = false → mark t = false →
      f' t = f t ∧
      (∃ st tl tl0, st ∈ stems ∧ f t = st ++ tl ∧ tl.count '=' = 0 ∧
        tl = tl0 ++ ['/']) ∧
      (∃ n cf cp, (f t).get? n = some cf ∧ p.get? n = some cp ∧ cf ≠ cp))
    (t : HTok) (hng : t.isGap = false) (REST : List Char) :
    replaceAll p r (f t ++ REST) = f' t ++ replaceAll p r REST := by
  cases hm : mark t with
  | true =>
    obtain ⟨hf, hf'⟩ := hmarked t hm
    rw [hf, hf', replaceAll_cons_hit p r REST hpne]
  | false =>
    obtain ⟨hff, ⟨st, tl, tl0, hst, hft, htl2, htl3⟩,
      ⟨n, cf, cp, hfn, hpn, hne⟩⟩ := hshape t hng hm
    have hskip : ∀ k, k < (f t).length →
        p.isPrefixOf (List.drop k (f t) ++ REST) = false := by
      intro k hk
      rcases Nat.eq_zero_or_pos k with rfl | hkpos
      · simp only [List.drop_zero]
        exact not_pref_of_mismatch p (f t) REST n
          (List.get?_eq_some.mp hfn).1 (List.get?_eq_some.mp hpn).1
          (neval cf cp hfn hpn hne)
      · rw [hft] at hk ⊢
        exact no_match_inside_tok p pstem hp hpstem st tl hst htl2 ⟨tl0, htl3⟩
          k hkpos hk REST
    rw [hff, replaceAll_skip_pref p r (f t) REST hskip]

/-- One `ReplaceAll` stage, tracked across a whole well-formed token list:
every marked token (and nothing else) is rewritten, however many there are. -/
theorem scan_chain (p r pstem : List Char) (hp : ∃ pt, p = pstem ++ pt)
    (hpstem : pstem ∈ stems)
    (f f' : HTok → List Char) (mark : HTok → Bool)
    (hgap : ∀ g, f (.gap g) = g ∧ f' (.gap g) = g)
    (hmarked : ∀ t, mark t = true → f t = p ∧ f' t = r)
    (hshape : ∀ t, t.isGap = false → mark t = false →
      f' t = f t ∧
      (∃ st tl tl0, st ∈ stems ∧ f t = st ++ tl ∧ tl.count '=' = 0 ∧
        tl = tl0 ++ ['/']) ∧
      (∃ n cf cp, (f t).get? n = some cf ∧ p.get? n = some cp ∧ cf ≠ cp)) :
    ∀ ts, wfB ts = true → replaceAll p r (catTok f ts) = catTok f' ts := by
  have hpne : p ≠ [] := by
    obtain ⟨pt, hpt⟩ := hp
    rw [hpt]
    intro hcon
    have hlen := congrArg List.length hcon
    simp only [List.length_append, List.length_nil] at hlen
    exact absurd (List.length_eq_zero.mp (by omega : pstem.length = 0))
      (stems_mark pstem hpstem).1
  intro ts
  induction ts with
  | nil =>
    intro hw
    simp [catTok, replaceAll]
  | cons t ts2 ih =>
    intro hwf
    have hwf2 : wfB ts2 = true := by
      simp only [wfB, Bool.and_eq_true] at hwf
      exact hwf.2
    have hok : tokOK t ts2 = true := by
      simp only [wfB, Bool.and_eq_true] at hwf
      exact hwf.1
    simp only [catTok]
    cases hgp : t.isGap with
    | false =>
      rw [scan_step_tok p r pstem hp hpstem hpne f f' mark hmarked hshape t hgp
        (catTok f ts2), ih hwf2]
    | true =>
      obtain ⟨g, rfl⟩ := isGap_eq t hgp
      simp only [tokOK, Bool.and_eq_true] at hok
      obtain ⟨hg, hhead⟩ := hok
      have hS : catTok f ts2 = [] ∨
          ∃ st2 rest, st2 ∈ stems ∧ catTok f ts2 = st2 ++ rest := by
        cases ts2 with
        | nil => exact Or.inl rfl
        | cons t2 ts3 =>
          right
          have hng2 : t2.isGap = false := by
            simp only [headNotGap, Bool.not_eq_true'] at hhead
            exact hhead
          cases hm : mark t2 with
          | true =>
            obtain ⟨hf, hfr⟩ := hmarked t2 hm
            obtain ⟨pt, hpt⟩ := hp
            refine ⟨pstem, pt ++ catTok f ts3, hpstem, ?_⟩
            simp only [catTok]
            rw [hf, hpt, List.append_assoc]
          | false =>
            obtain ⟨hff, ⟨st, tl, tl0, hst, hft, htl2, htl3⟩, hmis⟩ :=
              hshape t2 hng2 hm
            refine ⟨st, tl ++ catTok f ts3, hst, ?_⟩
            simp only [catTok]
            rw [hft, List.append_assoc]
      rw [(hgap g).1, (hgap g).2,
        scan_step_gap p r pstem hp hpstem g hg (catTok f ts2) hS, ih hwf2]

/-- Stage index of each token (0 = gap; 1-4 the root-relative patterns in
source order; 5-7 the absolute-base patterns). -/
def HTok.idx : HTok → Nat
  | .gap _ => 0
  | .url => 1
  | .act => 2
  | .href => 3
  | .src => 4
  | .actB => 5
  | .hrefB => 6
  | .srcB => 7

/-- Original body text of each token, for base URL `b0 :: bt`. -/
def HTok.text (b0 : Char) (bt : List Char) : HTok → List Char
  | .gap g => g
  | .url => lit "URL=/"
  | .act => lit "action=\"/"
  | .href => lit "href=\"/"
  | .src => lit "src=\"/"
  | .actB => lit "action=\"" ++ (b0 :: bt) ++ lit "/"
  | .hrefB => lit "href=\"" ++ (b0 :: bt) ++ lit "/"
  | .srcB => lit "src=\"" ++ (b0 :: bt) ++ lit "/"

/-- Keyed-mode output of each token. -/
def HTok.keyedOut (key : List Char) : HTok → List Char
  | .gap g => g
  | .url => lit "URL=/_/" ++ key ++ lit "/"
  | .act => lit "action=\"/_/" ++ key ++ lit "/"
  | .href => lit "href=\"/_/" ++ key ++ lit "/"
  | .src => lit "src=\"/_/" ++ key ++ lit "/"
  | .actB => lit "action=\"/_/" ++ key ++ lit "/"
  | .hrefB => lit "href=\"/_/" ++ key ++ lit "/"
  | .srcB => lit "src=\"/_/" ++ key ++ lit "/"

/-- No-key-mode output: the three absolute-base patterns become
root-relative, everything else is untouched. -/
def HTok.nokeyOut : HTok → List Char
  | .gap g => g
  | .url => lit "URL=/"
  | .act => lit "action=\"/"
  | .href => lit "href=\"/"
  | .src => lit "src=\"/"
  | .actB => lit "action=\"/"
  | .hrefB => lit "href=\"/"
  | .srcB => lit "src=\"/"

/-- Token state after the first `k` keyed stages. -/
def stageF (b0 : Char) (bt key : List Char) (k : Nat) (t : HTok) : List Char :=
  if t.idx ≠ 0 ∧ t.idx ≤ k then t.keyedOut key else t.text b0 bt

/-- Token state after the no-key stages up to `k`. -/
def stageN (b0 : Char) (bt : List Char) (k : Nat) (t : HTok) : List Char :=
  if 5 ≤ t.idx ∧ t.idx ≤ k then t.nokeyOut else t.text b0 bt

/-- The shape every non-gap token state has: a stem plus an `=`-free tail
ending in `/`. -/
abbrev SHP (v : List Char) : Prop :=
  ∃ st tl tl0, st ∈ stems ∧ v = st ++ tl ∧ tl.count '=' = 0 ∧ tl = tl0 ++ ['/']

theorem shpA : SHP (lit "URL=/") :=
  ⟨lit "URL=", lit "/", [], by decide, rfl, by decide, rfl⟩

theorem shpB : SHP (lit "action=\"/") :=
  ⟨lit "action=\"", lit "/", [], by decide, rfl, by decide, rfl⟩

theorem shpC : SHP (lit "href=\"/") :=
  ⟨lit "href=\"", lit "/", [], by decide, rfl, by decide, rfl⟩

theorem shpD : SHP (lit "src=\"/") :=
  ⟨lit "src=\"", lit "/", [], by decide, rfl, by decide, rfl⟩

theorem shpE (b0 : Char) (bt : List Char) (hbt : (b0 :: bt).count '=' = 0) :
    SHP (lit "action=\"" ++ (b0 :: bt) ++ lit "/") :=
  ⟨lit "action=\"", (b0 :: bt) ++ lit "/", b0 :: bt, by decide,
    List.append_assoc _ _ _, by rw [List.count_append, hbt]; decide, rfl⟩

theorem shpF (b0 : Char) (bt : List Char) (hbt : (b0 :: bt).count '=' = 0) :
    SHP (lit "href=\"" ++ (b0 :: bt) ++ lit "/") :=
  ⟨lit "href=\"", (b0 :: bt) ++ lit "/", b0 :: bt, by decide,
    List.append_assoc _ _ _, by rw [List.count_append, hbt]; decide, rfl⟩

theorem shpG (b0 : Char) (bt : List Char) (hbt : (b0 :: bt).count '=' = 0) :
    SHP (lit "src=\"" ++ (b0 :: bt) ++ lit "/") :=
  ⟨lit "src=\"", (b0 :: bt) ++ lit "/", b0 :: bt, by decide,
    List.append_assoc _ _ _, by rw [List.count_append, hbt]; decide, rfl⟩

theorem shpH (key : List Char) (hkey : key.count '=' = 0) :
    SHP (lit "URL=/_/" ++ key ++ lit "/") :=
  ⟨lit "URL=", lit "/_/" ++ key ++ lit "/", lit "/_/" ++ key, by decide, rfl,
    by rw [List.count_append, List.count_append, hkey]; decide, rfl⟩

theorem shpI (key : List Char) (hkey : key.count '=' = 0) :
    SHP (lit "action=\"/_/" ++ key ++ lit "/") :=
  ⟨lit "action=\"", lit "/_/" ++ key ++ lit "/", lit "/_/" ++ key, by decide, rfl,
    by rw [List.count_append, List.count_append, hkey]; decide, rfl⟩

theorem shpJ (key : List Char) (hkey : key.count '=' = 0) :
    SHP (lit "href=\"/_/" ++ key ++ lit "/") :=
  ⟨lit "href=\"", lit "/_/" ++ key ++ lit "/", lit "/_/" ++ key, by decide, rfl,
    by rw [List.count_append, List.count_append, hkey]; decide, rfl⟩

theorem shpK (key : List Char) (hkey : key.count '=' = 0) :
    SHP (lit "src=\"/_/" ++ key ++ lit "/") :=
  ⟨lit "src=\"", lit "/_/" ++ key ++ lit "/", lit "/_/" ++ key, by decide, rfl,
    by rw [List.count_append, List.count_append, hkey]; decide, rfl⟩


theorem keyed_stage1 (b0 : Char) (bt key : List Char) (hb0 : b0 ≠ '/')
    (hbt : (b0 :: bt).count '=' = 0) (hkey : key.count '=' = 0) :
    ∀ ts, wfB ts = true →
      replaceAll (lit "URL=/") (lit "URL=/_/" ++ key ++ lit "/")
        (catTok (stageF b0 bt key 0) ts) = catTok (stageF b0 bt key 1) ts := by
  refine scan_chain _ _ (lit "URL=") ⟨lit "/", rfl⟩ (by decide) _ _
    (fun t => t.idx == 1) (fun g => ⟨rfl, rfl⟩) ?_ ?_
  · intro t hm
    cases t with
    | gap g => simp [HTok.idx] at hm
    | url => exact ⟨rfl, rfl⟩
    | act => simp [HTok.idx] at hm
    | href => simp [HTok.idx] at hm
    | src => simp [HTok.idx] at hm
    | actB => simp [HTok.idx] at hm
    | hrefB => simp [HTok.idx] at hm
    | srcB => simp [HTok.idx] at hm
  · intro t hng hm
    cases t with
    | gap g => simp [HTok.isGap] at hng
    | url => simp [HTok.idx] at hm
    | act => exact ⟨rfl, shpB, ⟨0, 'a', 'U', rfl, rfl, by decide⟩⟩
    | href => exact ⟨rfl, shpC, ⟨0, 'h', 'U', rfl, rfl, by decide⟩⟩
    | src => exact ⟨rfl, shpD, ⟨0, 's', 'U', rfl, rfl, by decide⟩⟩
    | actB => exact ⟨rfl, shpE b0 bt hbt, ⟨0, 'a', 'U', rfl, rfl, by decide⟩⟩
    | hrefB => exact ⟨rfl, shpF b0 bt hbt, ⟨0, 'h', 'U', rfl, rfl, by decide⟩⟩
    | srcB => exact ⟨rfl, shpG b0 bt hbt, ⟨0, 's', 'U', rfl, rfl, by decide⟩⟩

theorem keyed_stage2 (b0 : Char) (bt key : List Char) (hb0 : b0 ≠ '/')
    (hbt : (b0 :: bt).count '=' = 0) (hkey : key.count '=' = 0) :
    ∀ ts, wfB ts = true →
      replaceAll (lit "action=\"/") (lit "action=\"/_/" ++ key ++ lit "/")
        (catTok (stageF b0 bt key 1) ts) = catTok (stageF b0 bt key 2) ts := by
  refine scan_chain _ _ (lit "action=\"") ⟨lit "/", rfl⟩ (by decide) _ _
    (fun t => t.idx == 2) (fun g => ⟨rfl, rfl⟩) ?_ ?_
  · intro t hm
    cases t with
    | gap g => simp [HTok.idx] at hm
    | url => simp [HTok.idx] at hm
    | act => exact ⟨rfl, rfl⟩
    | href => simp [HTok.idx] at hm
    | src => simp [HTok.idx] at hm
    | actB => simp [HTok.idx] at hm
    | hrefB => simp [HTok.idx] at hm
    | srcB => simp [HTok.idx] at hm
  · intro t hng hm
    cases t with
    | gap g => simp [HTok.isGap] at hng
    | url => exact ⟨rfl, shpH key hkey, ⟨0, 'U', 'a', rfl, rfl, by decide⟩⟩
    | act => simp [HTok.idx] at hm
    | href => exact ⟨rfl, shpC, ⟨0, 'h', 'a', rfl, rfl, by decide⟩⟩
    | src => exact ⟨rfl, shpD, ⟨0, 's', 'a', rfl, rfl, by decide⟩⟩
    | actB => exact ⟨rfl, shpE b0 bt hbt, ⟨8, b0, '/', rfl, rfl, hb0⟩⟩
    | hrefB => exact ⟨rfl, shpF b0 bt hbt, ⟨0, 'h', 'a', rfl, rfl, by decide⟩⟩
    | srcB => exact ⟨rfl, shpG b0 bt hbt, ⟨0, 's', 'a', rfl, rfl, by decide⟩⟩

theorem keyed_stage3 (b0 : Char) (bt key : List Char) (hb0 : b0 ≠ '/')
    (hbt : (b0 :: bt).count '=' = 0) (hkey : key.count '=' = 0) :
    ∀ ts, wfB ts = true →
      replaceAll (lit "href=\"/") (lit "href=\"/_/" ++ key ++ lit "/")
        (catTok (stageF b0 bt key 2) ts) = catTok (stageF b0 bt key 3) ts := by
  refine scan_chain _ _ (lit "href=\"") ⟨lit "/", rfl⟩ (by decide) _ _
    (fun t => t.idx == 3) (fun g => ⟨rfl, rfl⟩) ?_ ?_
  · intro t hm
    cases t with
    | gap g => simp [HTok.idx] at hm
    | url => simp [HTok.idx] at hm
    | act => simp [HTok.idx] at hm
    | href => exact ⟨rfl, rfl⟩
    | src => simp [HTok.idx] at hm
    | actB => simp [HTok.idx] at hm
    | hrefB => simp [HTok.idx] at hm
    | srcB => simp [HTok.idx] at hm
  · intro t hng hm
    cases t with
    | gap g => simp [HTok.isGap] at hng
    | url => exact ⟨rfl, shpH key hkey, ⟨0, 'U', 'h', rfl, rfl, by decide⟩⟩
    | act => exact ⟨rfl, shpI key hkey, ⟨0, 'a', 'h', rfl, rfl, by decide⟩⟩
    | href => simp [HTok.idx] at hm
    | src => exact ⟨rfl, shpD, ⟨0, 's', 'h', rfl, rfl, by decide⟩⟩
    | actB => exact ⟨rfl, shpE b0 bt hbt, ⟨0, 'a', 'h', rfl, rfl, by decide⟩⟩
    | hrefB => exact ⟨rfl, shpF b0 bt hbt, ⟨6, b0, '/', rfl, rfl, hb0⟩⟩
    | srcB => exact ⟨rfl, shpG b0 bt hbt, ⟨0, 's', 'h', rfl, rfl, by decide⟩⟩

theorem keyed_stage4 (b0 : Char) (bt key : List Char) (hb0 : b0 ≠ '/')
    (hbt : (b0 :: bt).count '=' = 0) (hkey : key.count '=' = 0) :
    ∀ ts, wfB ts = true →
      replaceAll (lit "src=\"/") (lit "src=\"/_/" ++ key ++ lit "/")
        (catTok (stageF b0 bt key 3) ts) = catTok (stageF b0 bt key 4) ts := by
  refine scan_chain _ _ (lit "src=\"") ⟨lit "/", rfl⟩ (by decide) _ _
    (fun t => t.idx == 4) (fun g => ⟨rfl, rfl⟩) ?_ ?_
  · intro t hm
    cases t with
    | gap g => simp [HTok.idx] at hm
    | url => simp [HTok.idx] at hm
    | act => simp [HTok.idx] at hm
    | href => simp [HTok.idx] at hm
    | src => exact ⟨rfl, rfl⟩
    | actB => simp [HTok.idx] at hm
    | hrefB => simp [HTok.idx] at hm
    | srcB => simp [HTok.idx] at hm
  · intro t hng hm
    cases t with
    | gap g => simp [HTok.isGap] at hng
    | url => exact ⟨rfl, shpH key hkey, ⟨0, 'U', 's', rfl, rfl, by decide⟩⟩
    | act => exact ⟨rfl, shpI key hkey, ⟨0, 'a', 's', rfl, rfl, by decide⟩⟩
    | href => exact ⟨rfl, shpJ key hkey, ⟨0, 'h', 's', rfl, rfl, by decide⟩⟩
    | src => simp [HTok.idx] at hm
    | actB => exact ⟨rfl, shpE b0 bt hbt, ⟨0, 'a', 's', rfl, rfl, by decide⟩⟩
    | hrefB => exact ⟨rfl, shpF b0 bt hbt, ⟨0, 'h', 's', rfl, rfl, by decide⟩⟩
    | srcB => exact ⟨rfl, shpG b0 bt hbt, ⟨5, b0, '/', rfl, rfl, hb0⟩⟩

theorem keyed_stage5 (b0 : Char) (bt key : List Char) (hb0 : b0 ≠ '/')
    (hbt : (b0 :: bt).count '=' = 0) (hkey : key.count '=' = 0) :
    ∀ ts, wfB ts = true →
      replaceAll (lit "action=\"" ++ (b0 :: bt) ++ lit "/") (lit "action=\"/_/" ++ key ++ lit "/")
        (catTok (stageF b0 bt key 4) ts) = catTok (stageF b0 bt key 5) ts := by
  refine scan_chain _ _ (lit "action=\"") ⟨(b0 :: bt) ++ lit "/", List.append_assoc _ _ _⟩ (by decide) _ _
    (fun t => t.idx == 5) (fun g => ⟨rfl, rfl⟩) ?_ ?_
  · intro t hm
    cases t with
    | gap g => simp [HTok.idx] at hm
    | url => simp [HTok.idx] at hm
    | act => simp [HTok.idx] at hm
    | href => simp [HTok.idx] at hm
    | src => simp [HTok.idx] at hm
    | actB => exact ⟨rfl, rfl⟩
    | hrefB => simp [HTok.idx] at hm
    | srcB => simp [HTok.idx] at hm
  · intro t hng hm
    cases t with
    | gap g => simp [HTok.isGap] at hng
    | url => exact ⟨rfl, shpH key hkey, ⟨0, 'U', 'a', rfl, rfl, by decide⟩⟩
    | act => exact ⟨rfl, shpI key hkey, ⟨8, '/', b0, rfl, rfl, Ne.symm hb0⟩⟩
    | href => exact ⟨rfl, shpJ key hkey, ⟨0, 'h', 'a', rfl, rfl, by decide⟩⟩
    | src => exact ⟨rfl, shpK key hkey, ⟨0, 's', 'a', rfl, rfl, by decide⟩⟩
    | actB => simp [HTok.idx] at hm
    | hrefB => exact ⟨rfl, shpF b0 bt hbt, ⟨0, 'h', 'a', rfl, rfl, by decide⟩⟩
    | srcB => exact ⟨rfl, shpG b0 bt hbt, ⟨0, 's', 'a', rfl, rfl, by decide⟩⟩

theorem keyed_stage6 (b0 : Char) (bt key : List Char) (hb0 : b0 ≠ '/')
    (hbt : (b0 :: bt).count '=' = 0) (hkey : key.count '=' = 0) :
    ∀ ts, wfB ts = true →
      replaceAll (lit "href=\"" ++ (b0 :: bt) ++ lit "/") (lit "href=\"/_/" ++ key ++ lit "/")
        (catTok (stageF b0 bt key 5) ts) = catTok (stageF b0 bt key 6) ts := by
  refine scan_chain _ _ (lit "href=\"") ⟨(b0 :: bt) ++ lit "/", List.append_assoc _ _ _⟩ (by decide) _ _
    (fun t => t.idx == 6) (fun g => ⟨rfl, rfl⟩) ?_ ?_
  · intro t hm
    cases t with
    | gap g => simp [HTok.idx] at hm
    | url => simp [HTok.idx] at hm
    | act => simp [HTok.idx] at hm
    | href => simp [HTok.idx] at hm
    | src => simp [HTok.idx] at hm
    | actB => simp [HTok.idx] at hm
    | hrefB => exact ⟨rfl, rfl⟩
    | srcB => simp [HTok.idx] at hm
  · intro t hng hm
    cases t with
    | gap g => simp [HTok.isGap] at hng
    | url => exact ⟨rfl, shpH key hkey, ⟨0, 'U', 'h', rfl, rfl, by decide⟩⟩
    | act => exact ⟨rfl, shpI key hkey, ⟨0, 'a', 'h', rfl, rfl, by decide⟩⟩
    | href => exact ⟨rfl, shpJ key hkey, ⟨6, '/', b0, rfl, rfl, Ne.symm hb0⟩⟩
    | src => exact ⟨rfl, shpK key hkey, ⟨0, 's', 'h', rfl, rfl, by decide⟩⟩
    | actB => exact ⟨rfl, shpI key hkey, ⟨0, 'a', 'h', rfl, rfl, by decide⟩⟩
    | hrefB => simp [HTok.idx] at hm
    | srcB => exact ⟨rfl, shpG b0 bt hbt, ⟨0, 's', 'h', rfl, rfl, by decide⟩⟩

theorem keyed_stage7 (b0 : Char) (bt key : List Char) (hb0 : b0 ≠ '/')
    (hbt : (b0 :: bt).count '=' = 0) (hkey : key.count '=' = 0) :
    ∀ ts, wfB ts = true →
      replaceAll (lit "src=\"" ++ (b0 :: bt) ++ lit "/") (lit "src=\"/_/" ++ key ++ lit "/")
        (catTok (stageF b0 bt key 6) ts) = catTok (stageF b0 bt key 7) ts := by
  refine scan_chain _ _ (lit "src=\"") ⟨(b0 :: bt) ++ lit "/", List.append_assoc _ _ _⟩ (by decide) _ _
    (fun t => t.idx == 7) (fun g => ⟨rfl, rfl⟩) ?_ ?_
  · intro t hm
    cases t with
    | gap g => simp [HTok.idx] at hm
    | url => simp [HTok.idx] at hm
    | act => simp [HTok.idx] at hm
    | href => simp [HTok.idx] at hm
    | src => simp [HTok.idx] at hm
    | actB => simp [HTok.idx] at hm
    | hrefB => simp [HTok.idx] at hm
    | srcB => exact ⟨rfl, rfl⟩
  · intro t hng hm
    cases t with
    | gap g => simp [HTok.isGap] at hng
    | url => exact ⟨rfl, shpH key hkey, ⟨0, 'U', 's', rfl, rfl, by decide⟩⟩
    | act => exact ⟨rfl, shpI key hkey, ⟨0, 'a', 's', rfl, rfl, by decide⟩⟩
    | href => exact ⟨rfl, shpJ key hkey, ⟨0, 'h', 's', rfl, rfl, by decide⟩⟩
    | src => exact ⟨rfl, shpK key hkey, ⟨5, '/', b0, rfl, rfl, Ne.symm hb0⟩⟩
    | actB => exact ⟨rfl, shpI key hkey, ⟨0, 'a', 's', rfl, rfl, by decide⟩⟩
    | hrefB => exact ⟨rfl, shpJ key hkey, ⟨0, 'h', 's', rfl, rfl, by decide⟩⟩
    | srcB => simp [HTok.idx] at hm

theorem nokey_stage5 (b0 : Char) (bt : List Char) (hb0 : b0 ≠ '/')
    (hbt : (b0 :: bt).count '=' = 0) :
    ∀ ts, wfB ts = true →
      replaceAll (lit "action=\"" ++ (b0 :: bt) ++ lit "/") (lit "action=\"/")
        (catTok (stageN b0 bt 4) ts) = catTok (stageN b0 bt 5) ts := by
  refine scan_chain _ _ (lit "action=\"") ⟨(b0 :: bt) ++ lit "/", List.append_assoc _ _ _⟩
    (by decide) _ _ (fun t => t.idx == 5) (fun g => ⟨rfl, rfl⟩) ?_ ?_
  · intro t hm
    cases t with
    | gap g => simp [HTok.idx] at hm
    | url => simp [HTok.idx] at hm
    | act => simp [HTok.idx] at hm
    | href => simp [HTok.idx] at hm
    | src => simp [HTok.idx] at hm
    | actB => exact ⟨rfl, rfl⟩
    | hrefB => simp [HTok.idx] at hm
    | srcB => simp [HTok.idx] at hm
  · intro t hng hm
    cases t with
    | gap g => simp [HTok.isGap] at hng
    | url => exact ⟨rfl, shpA, ⟨0, 'U', 'a', rfl, rfl, by decide⟩⟩
    | act => exact ⟨rfl, shpB, ⟨8, '/', b0, rfl, rfl, Ne.symm hb0⟩⟩
    | href => exact ⟨rfl, shpC, ⟨0, 'h', 'a', rfl, rfl, by decide⟩⟩
    | src => exact ⟨rfl, shpD, ⟨0, 's', 'a', rfl, rfl, by decide⟩⟩
    | actB => simp [HTok.idx] at hm
    | hrefB => exact ⟨rfl, shpF b0 bt hbt, ⟨0, 'h', 'a', rfl, rfl, by decide⟩⟩
    | srcB => exact ⟨rfl, shpG b0 bt hbt, ⟨0, 's', 'a', rfl, rfl, by decide⟩⟩

theorem nokey_stage6 (b0 : Char) (bt : List Char) (hb0 : b0 ≠ '/')
    (hbt : (b0 :: bt).count '=' = 0) :
    ∀ ts, wfB ts = true →
      replaceAll (lit "href=\"" ++ (b0 :: bt) ++ lit "/") (lit "href=\"/")
        (catTok (stageN b0 bt 5) ts) = catTok (stageN b0 bt 6) ts := by
  refine scan_chain _ _ (lit "href=\"") ⟨(b0 :: bt) ++ lit "/", List.append_assoc _ _ _⟩
    (by decide) _ _ (fun t => t.idx == 6) (fun g => ⟨rfl, rfl⟩) ?_ ?_
  · intro t hm
    cases t with
    | gap g => simp [HTok.idx] at hm
    | url => simp [HTok.idx] at hm
    | act => simp [HTok.idx] at hm
    | href => simp [HTok.idx] at hm
    | src => simp [HTok.idx] at hm
    | actB => simp [HTok.idx] at hm
    | hrefB => exact ⟨rfl, rfl⟩
    | srcB => simp [HTok.idx] at hm
  · intro t hng hm
    cases t with
    | gap g => simp [HTok.isGap] at hng
    | url => exact ⟨rfl, shpA, ⟨0, 'U', 'h', rfl, rfl, by decide⟩⟩
    | act => exact ⟨rfl, shpB, ⟨0, 'a', 'h', rfl, rfl, by decide⟩⟩
    | href => exact ⟨rfl, shpC, ⟨6, '/', b0, rfl, rfl, Ne.symm hb0⟩⟩
    | src => exact ⟨rfl, shpD, ⟨0, 's', 'h', rfl, rfl, by decide⟩⟩
    | actB => exact ⟨rfl, shpB, ⟨0, 'a', 'h', rfl, rfl, by decide⟩⟩
    | hrefB => simp [HTok.idx] at hm
    | srcB => exact ⟨rfl, shpG b0 bt hbt, ⟨0, 's', 'h', rfl, rfl, by decide⟩⟩

theorem nokey_stage7 (b0 : Char) (bt : List Char) (hb0 : b0 ≠ '/')
    (hbt : (b0 :: bt).count '=' = 0) :
    ∀ ts, wfB ts = true →
      replaceAll (lit "src=\"" ++ (b0 :: bt) ++ lit "/") (lit "src=\"/")
        (catTok (stageN b0 bt 6) ts) = catTok (stageN b0 bt 7) ts := by
  refine scan_chain _ _ (lit "src=\"") ⟨(b0 :: bt) ++ lit "/", List.append_assoc _ _ _⟩
    (by decide) _ _ (fun t => t.idx == 7) (fun g => ⟨rfl, rfl⟩) ?_ ?_
  · intro t hm
    cases t with
    | gap g => simp [HTok.idx] at hm
    | url => simp [HTok.idx] at hm
    | act => simp [HTok.idx] at hm
    | href => simp [HTok.idx] at hm
    | src => simp [HTok.idx] at hm
    | actB => simp [HTok.idx] at hm
    | hrefB => simp [HTok.idx] at hm
    | srcB => exact ⟨rfl, rfl⟩
  · intro t hng hm
    cases t with
    | gap g => simp [HTok.isGap] at hng
    | url => exact ⟨rfl, shpA, ⟨0, 'U', 's', rfl, rfl, by decide⟩⟩
    | act => exact ⟨rfl, shpB, ⟨0, 'a', 's', rfl, rfl, by decide⟩⟩
    | href => exact ⟨rfl, shpC, ⟨0, 'h', 's', rfl, rfl, by decide⟩⟩
    | src => exact ⟨rfl, shpD, ⟨5, '/', b0, rfl, rfl, Ne.symm hb0⟩⟩
    | actB => exact ⟨rfl, shpB, ⟨0, 'a', 's', rfl, rfl, by decide⟩⟩
    | hrefB => exact ⟨rfl, shpC, ⟨0, 'h', 's', rfl, rfl, by decide⟩⟩
    | srcB => simp [HTok.idx] at hm

theorem catTok_congr (f g : HTok → List Char) (h : ∀ t, f t = g t) :
    ∀ ts, catTok f ts = catTok g ts := by
  intro ts
  induction ts with
  | nil => rfl
  | cons t ts ih =>
    simp only [catTok]
    rw [h t, ih]

theorem stageF_zero (b0 : Char) (bt key : List Char) :
    ∀ t, stageF b0 bt key 0 t = HTok.text b0 bt t := by
  intro t
  cases t <;> rfl

theorem stageF_last (b0 : Char) (bt key : List Char) :
    ∀ t, stageF b0 bt key 7 t = HTok.keyedOut key t := by
  intro t
  cases t <;> rfl

theorem stageN_four (b0 : Char) (bt : List Char) :
    ∀ t, stageN b0 bt 4 t = HTok.text b0 bt t := by
  intro t
  cases t <;> rfl

theorem stageN_last (b0 : Char) (bt : List Char) :
    ∀ t, stageN b0 bt 7 t = HTok.nokeyOut t := by
  intro t
  cases t <;> rfl

/-- Keyed mode on a whole token decomposition: every pattern token of the
body — however many — comes out `/_/<key>/`-prefixed, every gap untouched. -/
theorem replaceHTMLContent_keyed_toks (user key : List Char) (b0 : Char)
    (bt : List Char) (hkne : key ≠ []) (hb0 : b0 ≠ '/')
    (hbt : (b0 :: bt).count '=' = 0) (hkey : key.count '=' = 0)
    (ts : List HTok) (hwf : wfB ts = true) :
    replaceHTMLContent ⟨b0 :: bt, user, key⟩ (catTok (HTok.text b0 bt) ts)
      = catTok (HTok.keyedOut key) ts := by
  unfold replaceHTMLContent
  simp only []
  rw [if_pos hkne]
  rw [← catTok_congr (stageF b0 bt key 0) (HTok.text b0 bt) (stageF_zero b0 bt key) ts]
  rw [keyed_stage1 b0 bt key hb0 hbt hkey ts hwf]
  rw [keyed_stage2 b0 bt key hb0 hbt hkey ts hwf]
  rw [keyed_stage3 b0 bt key hb0 hbt hkey ts hwf]
  rw [keyed_stage4 b0 bt key hb0 hbt hkey ts hwf]
  rw [keyed_stage5 b0 bt key hb0 hbt hkey ts hwf]
  rw [keyed_stage6 b0 bt key hb0 hbt hkey ts hwf]
  rw [keyed_stage7 b0 bt key hb0 hbt hkey ts hwf]
  exact catTok_congr (stageF b0 bt key 7) (HTok.keyedOut key) (stageF_last b0 bt key) ts

/-- No-key mode on a whole token decomposition: only the three absolute-base
attribute tokens change, each to the root-relative form. -/
theorem replaceHTMLContent_nokey_toks (user : List Char) (b0 : Char)
    (bt : List Char) (hb0 : b0 ≠ '/') (hbt : (b0 :: bt).count '=' = 0)
    (ts : List HTok) (hwf : wfB ts = true) :
    replaceHTMLContent ⟨b0 :: bt, user, []⟩ (catTok (HTok.text b0 bt) ts)
      = catTok HTok.nokeyOut ts := by
  unfold replaceHTMLContent
  simp only []
  rw [if_neg (by simp)]
  rw [← catTok_congr (stageN b0 bt 4) (HTok.text b0 bt) (stageN_four b0 bt) ts]
  rw [nokey_stage5 b0 bt hb0 hbt ts hwf]
  rw [nokey_stage6 b0 bt hb0 hbt ts hwf]
  rw [nokey_stage7 b0 bt hb0 hbt ts hwf]
  exact catTok_congr (stageN b0 bt 7) HTok.nokeyOut (stageN_last b0 bt) ts

/-- A body containing none of the four stems is returned unchanged, in both
modes. -/
theorem replaceHTMLContent_stemFree (user key : List Char) (b0 : Char)
    (bt : List Char) (hkne : key ≠ []) (hb0 : b0 ≠ '/')
    (hbt : (b0 :: bt).count '=' = 0) (hkey : key.count '=' = 0)
    (body : List Char) (hbody : stemFreeB body = true) :
    replaceHTMLContent ⟨b0 :: bt, user, key⟩ body = body ∧
      replaceHTMLContent ⟨b0 :: bt, user, []⟩ body = body := by
  constructor
  · have h := replaceHTMLContent_keyed_toks user key b0 bt hkne hb0 hbt hkey
      [.gap body] (by simp [wfB, tokOK, headNotGap, hbody])
    simpa [catTok, HTok.text, HTok.keyedOut] using h
  · have h := replaceHTMLContent_nokey_toks user b0 bt hb0 hbt
      [.gap body] (by simp [wfB, tokOK, headNotGap, hbody])
    simpa [catTok, HTok.text, HTok.nokeyOut] using h

/-- C7: HTML body rewriting. The `ReplaceAll` primitive is characterized
exactly on every input: it splits the text at the leftmost non-overlapping
occurrences of the pattern (the pieces containing no further occurrence) and
rejoins the pieces with the replacement, so each stage rewrites every
occurrence its scan finds and leaves all other text unchanged. On any body
decomposed into pattern occurrences separated by stem-free free text (which
may contain `=` and arbitrary markup), keyed mode rewrites every occurrence
of `URL=/`, `action="/`, `href="/`, `src="/` and of the three absolute-base
attribute forms to the `/_/<key>/`-prefixed form, while no-key mode rewrites
exactly the three absolute-base forms to root-relative form; bodies free of
all four stems pass through unchanged; and the rewrite is applied exactly to
authorized non-invalidated responses whose Content-Type contains
`text/html`. -/
theorem replaceHTMLContent_spec :
    (∀ pat rep s : List Char,
      replaceAll pat rep s = joinWith rep (splitOnSub pat s)) ∧
    (∀ pat s : List Char, pat ≠ [] → joinWith pat (splitOnSub pat s) = s) ∧
    (∀ pat s : List Char, pat ≠ [] → ∀ g ∈ splitOnSub pat s,
      ¬ ∃ x y, g = x ++ pat ++ y) ∧
    (∀ (user key : List Char) (b0 : Char) (bt : List Char),
      key ≠ [] → b0 ≠ '/' → (b0 :: bt).count '=' = 0 → key.count '=' = 0 →
      ∀ ts, wfB ts = true →
        replaceHTMLContent ⟨b0 :: bt, user, key⟩ (catTok (HTok.text b0 bt) ts)
          = catTok (HTok.keyedOut key) ts) ∧
    (∀ (user : List Char) (b0 : Char) (bt : List Char),
      b0 ≠ '/' → (b0 :: bt).count '=' = 0 →
      ∀ ts, wfB ts = true →
        replaceHTMLContent ⟨b0 :: bt, user, []⟩ (catTok (HTok.text b0 bt) ts)
          = catTok HTok.nokeyOut ts) ∧
    (∀ (user key : List Char) (b0 : Char) (bt body : List Char),
      key ≠ [] → b0 ≠ '/' → (b0 :: bt).count '=' = 0 → key.count '=' = 0 →
      stemFreeB body = true →
        replaceHTMLContent ⟨b0 :: bt, user, key⟩ body = body ∧
        replaceHTMLContent ⟨b0 :: bt, user, []⟩ body = body) ∧
    (∀ (s : Server) (path rawQuery : List Char) (jar : Jar) (resp : Resp),
      isAuthorizedRequest s path = true →
      (isLoginPage resp.body || isRedirectToLogin resp) = false →
      containsSub resp.contentType (lit "text/html") = true →
      (proxyRequest s path rawQuery jar (.ok resp)).1.writes
        = [⟨resp.statusCode, replaceHTMLContent s resp.body,
            (if 300 ≤ resp.statusCode ∧ resp.statusCode < 400 then
              some (getLocation s resp.location) else none)⟩]) := by
  refine ⟨replaceAll_eq_joinWith,
    fun pat s hpne => joinWith_splitOnSub pat hpne s,
    fun pat s hpne => splitOnSub_pieces_free pat hpne s,
    fun user key b0 bt h1 h2 h3 h4 ts hwf =>
      replaceHTMLContent_keyed_toks user key b0 bt h1 h2 h3 h4 ts hwf,
    fun user b0 bt h1 h2 ts hwf =>
      replaceHTMLContent_nokey_toks user b0 bt h1 h2 ts hwf,
    fun user key b0 bt body h1 h2 h3 h4 h5 =>
      replaceHTMLContent_stemFree user key b0 bt h1 h2 h3 h4 body h5, ?_⟩
  intro s path rawQuery jar resp hauth hinv hct
  obtain ⟨uri, hres⟩ := resolve_ok_of_authorized s path rawQuery hauth
  unfold proxyRequest
  rw [if_neg (by simp [hauth]), hres]
  simp only []
  rw [if_neg (by simp [hinv])]
  simp [hct]

/-- Witness for C7: a realistic body holding three pattern occurrences
(relative `href`, relative `src`, absolute-base `href`) between gaps that
contain `=` characters, rewritten in keyed mode in one application. -/
theorem replaceHTMLContent_spec_witness :
    replaceHTMLContent ⟨lit "https://owa.h-ka.de", lit "u", lit "k"⟩
        (lit "<a class=\"nav\" href=\"/owa/x\">L</a><img id=\"i\" src=\"/p.png\"> href=\"https://owa.h-ka.de/owa/y\">")
      = lit "<a class=\"nav\" href=\"/_/k/owa/x\">L</a><img id=\"i\" src=\"/_/k/p.png\"> href=\"/_/k/owa/y\">" := by
  have h := replaceHTMLContent_spec.2.2.2.1 (lit "u") (lit "k") 'h'
    (lit "ttps://owa.h-ka.de") (by decide) (by decide) (by decide) (by decide)
    [.gap (lit "<a class=\"nav\" "), .href,
      .gap (lit "owa/x\">L</a><img id=\"i\" "), .src, .gap (lit "p.png\"> "),
      .hrefB, .gap (lit "owa/y\">")] (by decide)
  exact h

end HkaProxy
